import Mathlib

/-!
Verification of the reconciliation engine of gcal-import-ics
(src/gcal_import.py) against its natural-language specification.

The Python source is shallowly embedded below.  Events from the gcsa
library are modelled by the structure GEvent; Python None is modelled by
Option.none and the empty string by Option.some "".  Instants (datetime
values) are modelled by Nat; the store-assigned event id (the handle) by
Nat.  The external Google Calendar store (an external collaborator, spec
section 6) is modelled by a parametric record of operations StoreModel,
with several concrete instantiations (a faithful store, a store showing
the status-mangling quirk the source itself documents, failing stores).
-/

namespace GcalImport

/-- Model of a gcsa calendar event: the fields read and written by
src/gcal_import.py.  Optional string fields distinguish Python None
(none) from the empty string (some "").  The field endTime models the
attribute named end in the source; sequence models other["sequence"];
status models other["status"]; eventId is the opaque store handle. -/
structure GEvent where
  iCalUID : String
  summary : Option String
  description : Option String
  location : Option String
  start : Option Nat
  endTime : Option Nat
  recurrence : List String
  transparency : Option String
  status : Option String
  sequence : Option Nat
  eventId : Nat
deriving DecidableEq, Repr

/-- Python test p in ["", None] for an optional string. -/
def emptyNone : Option String → Bool
  | none => true
  | some s => s == ""

/-- Python test p in ["", None, "opaque"]. -/
def opaqueLike (p : Option String) : Bool :=
  emptyNone p || p == some "opaque"

/-- Python test p in ["", None, "confirmed"]. -/
def confirmedLike (p : Option String) : Bool :=
  emptyNone p || p == some "confirmed"

/-- Equality used by gcal_compare for plain text fields (lines 75-77 and
121-123 of src/gcal_import.py): empty string and None are identified,
otherwise literal equality. -/
def optStrEq (p1 p2 : Option String) : Bool :=
  (emptyNone p1 && emptyNone p2) || p1 == p2

/-- Equality used by gcal_compare for the transparency field: both
empty/None, or both in ["", None, "opaque"] (opaque being the default),
or literal equality. -/
def transparencyEq (p1 p2 : Option String) : Bool :=
  (emptyNone p1 && emptyNone p2) || (opaqueLike p1 && opaqueLike p2) || p1 == p2

/-- Equality used by gcal_compare for other["status"]: both empty/None,
or both in ["", None, "confirmed"] (confirmed being the default), or
literal equality. -/
def statusEq (p1 p2 : Option String) : Bool :=
  (emptyNone p1 && emptyNone p2) || (confirmedLike p1 && confirmedLike p2) || p1 == p2

/-- Equality used by gcal_compare for datetime fields (start, end) and
for other["sequence"]: a non-string value only equals "" or None when it
is None, otherwise literal equality. -/
def optNatEq (p1 p2 : Option Nat) : Bool :=
  (p1.isNone && p2.isNone) || p1 == p2

/-- Removal of a leading RRULE: from a rule string, as done by
re.sub at lines 105-114 of the source. -/
def stripRRuleHead (s : String) : String :=
  match s.data with
  | 'R' :: 'R' :: 'U' :: 'L' :: 'E' :: ':' :: rest => String.mk rest
  | _ => s

/-- Splitting of a character list at every occurrence of a separator,
keeping empty pieces, as Python str.split does on a one-character
separator. -/
def splitChars (sep : Char) : List Char → List (List Char)
  | [] => [[]]
  | c :: cs =>
      match splitChars sep cs with
      | [] => []
      | h :: t => if c = sep then [] :: h :: t else (c :: h) :: t

/-- The semicolon-separated parts of a rule, after dropping a leading
RRULE: marker (the Python set(...split(";")) at lines 105-114). -/
def ruleParts (s : String) : List String :=
  (splitChars ';' (stripRRuleHead s).data).map (fun l => String.mk l)

/-- Equality of two lists viewed as sets of strings (Python set equality
of the two part sets). -/
def listSetEq (a b : List String) : Bool :=
  a.all (fun x => b.contains x) && b.all (fun x => a.contains x)

/-- Equality of two recurrence rules: their semicolon-separated part
sets coincide (lines 105-119 of the source). -/
def ruleEq (r1 r2 : String) : Bool :=
  listSetEq (ruleParts r1) (ruleParts r2)

/-- Lexicographic comparison of two character lists by code point, the
order Python uses to compare strings. -/
def charsLe : List Char → List Char → Bool
  | [], _ => true
  | _ :: _, [] => false
  | a :: as, b :: bs =>
      if a.toNat < b.toNat then true
      else if b.toNat < a.toNat then false
      else charsLe as bs

/-- String comparison by code point (Python string ordering). -/
def strLe (a b : String) : Bool :=
  charsLe a.data b.data

/-- Lexicographic sort of a list of strings: Python list.sort() on
strings orders them by code point, functionally modelled here (the
source sorts the lists in place; later comparisons are insensitive to
that order, so results agree). -/
def sortStrings (l : List String) : List String :=
  l.insertionSort (fun a b => strLe a b = true)

/-- Recurrence comparison of gcal_compare (lines 85-120 of the source):
lists of different length differ; otherwise both lists are sorted and
the rules at equal positions are compared by their semicolon part sets. -/
def recurrenceEq (p1 p2 : List String) : Bool :=
  if p1.length ≠ p2.length then false
  else ((sortStrings p1).zip (sortStrings p2)).all (fun ab => ruleEq ab.1 ab.2)

/-- Shallow embedding of gcal_compare (lines 63-147 of the source): the
conjunction of the per-field checks over summary, description, location,
start, end, recurrence, transparency, and over other["status"] and,
unless ignoreSequence, other["sequence"].  The source returns False at
the first differing field; as a pure value that is this conjunction. -/
def gcal_compare (e1 e2 : GEvent) (ignoreSequence : Bool) : Bool :=
  optStrEq e1.summary e2.summary &&
  optStrEq e1.description e2.description &&
  optStrEq e1.location e2.location &&
  optNatEq e1.start e2.start &&
  optNatEq e1.endTime e2.endTime &&
  recurrenceEq e1.recurrence e2.recurrence &&
  transparencyEq e1.transparency e2.transparency &&
  statusEq e1.status e2.status &&
  (ignoreSequence || optNatEq e1.sequence e2.sequence)

/-- Python truthiness of the status string read at line 261 of the
source: None and the empty string are falsy, every other string truthy
(used by the guards at lines 339 and 407). -/
def statusTruthy : Option String → Bool
  | none => false
  | some s => !(s == "")

/-- The copy of desired fields onto a remote event performed before an
update (lines 331-340 and 399-408 of the source): summary, description,
location, transparency, start, end and recurrence are always copied;
status only when the desired status string is truthy.  The identity,
sequence and handle of the destination are kept. -/
def copyFields (dst src : GEvent) : GEvent :=
  let d := { dst with
    summary := src.summary
    description := src.description
    location := src.location
    transparency := src.transparency
    start := src.start
    endTime := src.endTime
    recurrence := src.recurrence }
  if statusTruthy src.status then { d with status := src.status } else d

/-- One feed item as consumed by import_events: the normalized event
produced by ics_to_gcal together with the flag telling whether the
original ical item carried a RECURRENCE-ID (line 267 of the source). -/
structure FeedItem where
  hasRecurrenceId : Bool
  event : GEvent
deriving DecidableEq, Repr

/-- An entry of the failed ledger list: the source appends plain uid
strings in the recurring-instance branch and full event objects in the
create/update branches. -/
inductive FailedEntry where
  | uid (u : String)
  | ev (e : GEvent)
deriving DecidableEq, Repr

/-- The uid recorded by a failed entry. -/
def FailedEntry.theUid : FailedEntry → String
  | .uid u => u
  | .ev e => e.iCalUID

/-- The outcome ledger gcal_changes of import_events (lines 247-254 of
the source).  The source never appends to unsupported. -/
structure Ledger where
  updated : List GEvent
  created : List GEvent
  untouched : List GEvent
  duplicates : List String
  unsupported : List GEvent
  failed : List FailedEntry
deriving DecidableEq, Repr

/-- The empty ledger import_events starts from. -/
def Ledger.init : Ledger := ⟨[], [], [], [], [], []⟩

/-- A store operation, recorded in a trace so that theorems can speak
about which Calendar Store calls a run issues. -/
inductive StoreOp where
  | queryByUid (uid : String)
  | queryInstances (parentId : Nat) (tmin tmax : Option Nat)
  | queryAll (tmin : Nat)
  | create (uid : String)
  | update (eventId : Nat)
  | delete (eventId : Nat)
deriving DecidableEq, Repr

/-- Whether a store operation mutates the store. -/
def StoreOp.isMutation : StoreOp → Bool
  | .create _ => true
  | .update _ => true
  | .delete _ => true
  | _ => false

/-- The Calendar Store capability consumed by the engine (an external
collaborator; modelled from the contract in spec section 6 and from the
gcsa calls the source makes).  Errors carry the HTTP-like status string
of the raised exception.  Queries do not change the state; create,
update and delete return the new state. -/
structure StoreModel (σ : Type) where
  getByUid : σ → String → List GEvent
  getInstances : σ → GEvent → Option Nat → Option Nat → Nat → Except String (List GEvent)
  getAll : σ → Nat → List GEvent
  importEvent : σ → GEvent → Except String (GEvent × σ)
  updateEvent : σ → GEvent → Except String (GEvent × σ)
  deleteEvent : σ → GEvent → Except String σ

/-- gcal_get_event (lines 22-31 of the source): the first result of a
store query by iCalUID over an unbounded window, or None. -/
def gcal_get_event (M : StoreModel σ) (s : σ) (uid : String) : Option GEvent :=
  (M.getByUid s uid).head?

/-- The running state of one import_events invocation: the store, the
processed_uids list, the ledger built so far, and the trace of store
operations issued so far. -/
structure RunState (σ : Type) where
  store : σ
  processed : List String
  ledger : Ledger
  trace : List StoreOp

/-- The branch of import_events for a resolved remote event (lines
322-357 of the source): compare, and either leave the event untouched or
copy the desired fields onto it and update, verifying the write.  The
update_event call at line 348 is not guarded by a try, so its failure
aborts the run. -/
def updatePath (M : StoreModel σ) (dryRun : Bool) (st : RunState σ)
    (D R : GEvent) : Except String (RunState σ) :=
  if gcal_compare R D true then
    .ok { st with ledger.untouched := st.ledger.untouched ++ [R] }
  else
    let R1 := copyFields R D
    if dryRun then
      .ok st
    else
      let st := { st with trace := st.trace ++ [StoreOp.update R1.eventId] }
      match M.updateEvent st.store R1 with
      | .error e => .error e
      | .ok (upd, s1) =>
          if gcal_compare D upd true then
            .ok { st with ledger.updated := st.ledger.updated ++ [upd], store := s1 }
          else
            .ok { st with ledger.failed := st.ledger.failed ++ [FailedEntry.ev upd], store := s1 }

/-- Processing of the recurring-instance branch of import_events (lines
267-310 of the source): resolve the parent series by identity, then the
single instance in the item window; zero or several matches, a missing
parent (gcsa raises on a None recurring_event, caught at line 281) or a
store error become a failed entry recording the uid.  No duplicate check
happens on this branch. -/
def instancePath (M : StoreModel σ) (dryRun : Bool) (st : RunState σ)
    (D : GEvent) : Except String (RunState σ) :=
  let uid := D.iCalUID
  let parent? := gcal_get_event M st.store uid
  let st := { st with trace := st.trace ++ [StoreOp.queryByUid uid] }
  match parent? with
  | none =>
      .ok { st with ledger.failed := st.ledger.failed ++ [FailedEntry.uid uid] }
  | some parent =>
      let st := { st with
        trace := st.trace ++ [StoreOp.queryInstances parent.eventId D.start D.endTime] }
      match M.getInstances st.store parent D.start D.endTime 2 with
      | .error _ =>
          .ok { st with ledger.failed := st.ledger.failed ++ [FailedEntry.uid uid] }
      | .ok [] =>
          .ok { st with ledger.failed := st.ledger.failed ++ [FailedEntry.uid uid] }
      | .ok [R] =>
          let st := { st with processed := st.processed ++ [uid] }
          updatePath M dryRun st D R
      | .ok (_ :: _ :: _) =>
          .ok { st with ledger.failed := st.ledger.failed ++ [FailedEntry.uid uid] }

/-- The create branch of import_events (lines 359-433 of the source):
in dry-run nothing happens; otherwise import_event is called, its
exception caught as a failed entry (lines 374-377); when the created
event does not compare equal to the desired one a single corrective
update is issued, whose exception is re-raised by the outer handler
(lines 431-433) and aborts the run; the result is appended to created
whether or not the verification at line 413 succeeds. -/
def createPath (M : StoreModel σ) (dryRun : Bool) (st : RunState σ)
    (D : GEvent) : Except String (RunState σ) :=
  if dryRun then
    .ok st
  else
    let st := { st with trace := st.trace ++ [StoreOp.create D.iCalUID] }
    match M.importEvent st.store D with
    | .error _ =>
        .ok { st with ledger.failed := st.ledger.failed ++ [FailedEntry.ev D] }
    | .ok (res, s1) =>
        let st := { st with store := s1 }
        if gcal_compare D res true then
          .ok { st with ledger.created := st.ledger.created ++ [res] }
        else
          let res1 := copyFields res D
          let st := { st with trace := st.trace ++ [StoreOp.update res1.eventId] }
          match M.updateEvent st.store res1 with
          | .error e => .error e
          | .ok (res2, s2) =>
              .ok { st with
                ledger.created := st.ledger.created ++ [res2],
                store := s2 }

/-- Processing of one feed item by import_events (lines 257-433 of the
source).  An error value models an exception that escapes the per-item
handling and aborts the whole run. -/
def processItem (M : StoreModel σ) (dryRun : Bool) (st : RunState σ)
    (item : FeedItem) : Except String (RunState σ) :=
  let D := item.event
  let uid := D.iCalUID
  if item.hasRecurrenceId then
    instancePath M dryRun st D
  else if st.processed.contains uid then
    -- duplicate iCalUID (lines 313-316): no store access
    .ok { st with ledger.duplicates := st.ledger.duplicates ++ [uid] }
  else
    let remote? := gcal_get_event M st.store uid
    let st := { st with
      trace := st.trace ++ [StoreOp.queryByUid uid]
      processed := st.processed ++ [uid] }
    match remote? with
    | some R => updatePath M dryRun st D R
    | none => createPath M dryRun st D

/-- Folding processItem over the feed. -/
def runItems (M : StoreModel σ) (dryRun : Bool) :
    List FeedItem → RunState σ → Except String (RunState σ)
  | [], st => .ok st
  | item :: rest, st =>
      match processItem M dryRun st item with
      | .error e => .error e
      | .ok st1 => runItems M dryRun rest st1

/-- Shallow embedding of import_events (lines 246-435 of the source):
the feed is the list produced by read_ics and ics_to_gcal; the result is
the final ledger, final store state and the trace of store operations,
or the status of an exception that aborted the run. -/
def import_events (M : StoreModel σ) (s : σ) (feed : List FeedItem)
    (dryRun : Bool) : Except String (Ledger × σ × List StoreOp) := do
  let st ← runItems M dryRun feed ⟨s, [], Ledger.init, []⟩
  return (st.ledger, st.store, st.trace)

/-- Deletion loop of delete_other_events (lines 454-465 of the source),
accumulating the deleted count, the store state and the issued
operations. -/
def deleteLoop (M : StoreModel σ) (importedUids : List String) (dryRun : Bool) :
    List GEvent → Nat × σ × List StoreOp → Except String (Nat × σ × List StoreOp)
  | [], acc => .ok acc
  | ev :: rest, (deletedCount, st, trace) =>
      if !(importedUids.contains ev.iCalUID) then
        if dryRun then
          deleteLoop M importedUids dryRun rest (deletedCount, st, trace)
        else
          match M.deleteEvent st ev with
          | .error e => .error e
          | .ok s1 =>
              deleteLoop M importedUids dryRun rest
                (deletedCount + 1, s1, trace ++ [StoreOp.delete ev.eventId])
      else
        deleteLoop M importedUids dryRun rest (deletedCount, st, trace)

/-- Shallow embedding of delete_other_events (lines 438-466 of the
source): list the store events from the time lower bound on, compute the
iCalUIDs of the updated, created and untouched ledger entries, and
delete every listed event whose iCalUID is not among them.  The
delete_event call at line 464 is not guarded, so a store exception
propagates and aborts the sweep.  The parameter now models
datetime.now(); includePast chooses the 1970 lower bound instead. -/
def delete_other_events (M : StoreModel σ) (s : σ) (importedEvents : Ledger)
    (now : Nat) (includePast dryRun : Bool) :
    Except String (Nat × σ × List StoreOp) :=
  let tmin := if includePast then 0 else now
  let events := M.getAll s tmin
  let importedUids :=
    (importedEvents.updated ++ importedEvents.created ++ importedEvents.untouched).map
      (fun e => e.iCalUID)
  deleteLoop M importedUids dryRun events (0, s, [StoreOp.queryAll tmin])

/-- Deletion loop of gcal_clear (lines 43-59 of the source). -/
def clearLoop (M : StoreModel σ) (dryRun : Bool) :
    List GEvent → Nat × σ → Except String (Nat × σ)
  | [], acc => .ok acc
  | ev :: rest, (deleted, st) =>
      if dryRun then
        clearLoop M dryRun rest (deleted, st)
      else
        match M.deleteEvent st ev with
        | .error code =>
            if code != "410" then .error code
            else clearLoop M dryRun rest (deleted + 1, st)
        | .ok s1 =>
            clearLoop M dryRun rest (deleted + 1, s1)

/-- Shallow embedding of gcal_clear (lines 34-60 the source): list every
event, and delete each one unless dry-run; an exception whose status is
"410" (Gone, resource already deleted) is swallowed and the deletion
still counted, any other exception is re-raised.  In dry-run the counter
is not incremented. -/
def gcal_clear (M : StoreModel σ) (s : σ) (dryRun : Bool) :
    Except String (Nat × σ) :=
  clearLoop M dryRun (M.getAll s 0) (0, s)

/-- Python truthiness of the gcal_changes dictionary at line 635 of the
source: the dictionary always has its six keys, and a non-empty dict is
truthy in Python regardless of its values, so the test is constantly
true (even when every ledger list is empty). -/
def ledgerTruthy (_l : Ledger) : Bool := true

/-- The fringe-sweep guard of import_ics (lines 634-643 of the source):
the sweep runs when the delete flag is set and the truthiness test on
the ledger dictionary, or dry-run, holds. -/
def fringe_sweep_runs (deleteFlag : Bool) (events : Ledger) (dryRun : Bool) : Bool :=
  deleteFlag && (ledgerTruthy events || dryRun)

/-- The fringe-sweep step of import_ics: when the guard holds, the sweep
is executed with includePast false (import_ics never passes
include_past_events); otherwise nothing is deleted. -/
def import_ics_sweep (M : StoreModel σ) (s : σ) (events : Ledger)
    (now : Nat) (deleteFlag dryRun : Bool) :
    Except String (Option (Nat × σ × List StoreOp)) :=
  if fringe_sweep_runs deleteFlag events dryRun then
    (delete_other_events M s events now false dryRun).map some
  else
    .ok none

/- Concrete store instantiations.  The state is a list of series-level
events, a list of recurring-event instances tagged with the eventId of
their parent series, and a counter supplying fresh handles. -/

/-- State of the concrete calendar store models. -/
structure FStore where
  events : List GEvent
  instances : List (Nat × GEvent)
  nextId : Nat
deriving DecidableEq, Repr

/-- Comparison of an optional lower bound against an optional instant
used by the instance-window filter of the concrete store. -/
def optLe : Option Nat → Option Nat → Bool
  | some a, some b => a ≤ b
  | _, _ => false

/-- Window filter for instance queries: the instance start lies inside
[tmin, tmax] (modelled from the spec contract queryInstances with the
instance's own start/end window). -/
def instInWindow (e : GEvent) (tmin tmax : Option Nat) : Bool :=
  optLe tmin e.start && optLe e.start tmax

/-- Lower-bound filter for the unbounded listing used by gcal_clear and
delete_other_events: events with a start instant from tmin on; events
without a start instant are listed too. -/
def startFrom (tmin : Nat) (e : GEvent) : Bool :=
  match e.start with
  | some s => tmin ≤ s
  | none => true

/-- Query part shared by the concrete stores: lookup by iCalUID over the
series-level events (single_events false), instance expansion by parent
handle and window, and the bounded listing. -/
def fstoreGetByUid (s : FStore) (uid : String) : List GEvent :=
  s.events.filter (fun e => e.iCalUID == uid)

/-- Instance query of the concrete stores (maxResults results at most). -/
def fstoreGetInstances (s : FStore) (parent : GEvent) (tmin tmax : Option Nat)
    (maxResults : Nat) : Except String (List GEvent) :=
  .ok (((s.instances.filter
      (fun pe => pe.1 == parent.eventId && instInWindow pe.2 tmin tmax)).map
        (fun pe => pe.2)).take maxResults)

/-- Bounded listing of the concrete stores: series events from tmin on. -/
def fstoreGetAll (s : FStore) (tmin : Nat) : List GEvent :=
  s.events.filter (startFrom tmin)

/-- Replacement of the event carrying a given handle, in both the series
list and the instance table. -/
def fstoreReplace (s : FStore) (e : GEvent) : FStore :=
  { s with
    events := s.events.map (fun x => if x.eventId == e.eventId then e else x)
    instances := s.instances.map
      (fun pe => if pe.2.eventId == e.eventId then (pe.1, e) else pe) }

/-- Removal of the event carrying a given handle. -/
def fstoreDelete (s : FStore) (e : GEvent) : FStore :=
  { s with
    events := s.events.filter (fun x => x.eventId != e.eventId)
    instances := s.instances.filter (fun pe => pe.2.eventId != e.eventId) }

/-- The faithful store: writes succeed and store the written event
verbatim (create assigns a fresh handle), matching the Calendar Store
contract of spec section 6 with no failures. -/
def faithfulStore : StoreModel FStore where
  getByUid := fstoreGetByUid
  getInstances := fstoreGetInstances
  getAll := fstoreGetAll
  importEvent := fun s e =>
    let stored := { e with eventId := s.nextId }
    .ok (stored, { s with events := s.events ++ [stored], nextId := s.nextId + 1 })
  updateEvent := fun s e => .ok (e, fstoreReplace s e)
  deleteEvent := fun s e => .ok (fstoreDelete s e)

/-- A store exhibiting the quirk the source itself documents at lines
379-380 (events coming back with status cancelled): every write stores
and returns the written event with status forced to cancelled. -/
def cancelStatusStore : StoreModel FStore where
  getByUid := fstoreGetByUid
  getInstances := fstoreGetInstances
  getAll := fstoreGetAll
  importEvent := fun s e =>
    let stored := { e with eventId := s.nextId, status := some "cancelled" }
    .ok (stored, { s with events := s.events ++ [stored], nextId := s.nextId + 1 })
  updateEvent := fun s e =>
    let e1 := { e with status := some "cancelled" }
    .ok (e1, fstoreReplace s e1)
  deleteEvent := fun s e => .ok (fstoreDelete s e)

/-- A store whose update calls raise (HTTP 500); reads and creates are
the faithful ones. -/
def updateFailStore : StoreModel FStore :=
  { faithfulStore with updateEvent := fun _ _ => .error "500" }

/-- A store whose create calls raise (HTTP 500); everything else is the
faithful behaviour. -/
def createFailStore : StoreModel FStore :=
  { faithfulStore with importEvent := fun _ _ => .error "500" }

/-- A store whose delete calls raise with status 410 (Gone: the resource
was already deleted); everything else is the faithful behaviour. -/
def gone410Store : StoreModel FStore :=
  { faithfulStore with deleteEvent := fun _ _ => .error "410" }

/-- A store whose delete calls raise with status 500; everything else is
the faithful behaviour. -/
def delete500Store : StoreModel FStore :=
  { faithfulStore with deleteEvent := fun _ _ => .error "500" }

/- Calendar resolution of import_ics (lines 582-607 of the source). -/

/-- Character-wise match of a regex tail made of literals and
unescaped dots (which match any character except a newline), against a
prefix of the input. -/
def wildMatch : List Char → List Char → Bool
  | [], _ => true
  | _ :: _, [] => false
  | p :: ps, c :: cs =>
      (if p == '.' then c != '\n' else p == c) && wildMatch ps cs

/-- Scan implementing re.match(".+@group.calendar.google.com", s): some
non-empty prefix of non-newline characters, then the tail pattern
(in which the dots are unescaped and match any non-newline character),
anywhere-suffix allowed since the pattern is unanchored at the end. -/
def groupCalScan : List Char → Bool
  | [] => false
  | c :: cs =>
      c != '\n' && (wildMatch "@group.calendar.google.com".data cs || groupCalScan cs)

/-- The test re.match(".+@group.calendar.google.com", calendar_name) at
line 583 of the source. -/
def matchesGroupCal (s : String) : Bool :=
  groupCalScan s.data

/-- One entry of the account's calendar list as consumed at lines
587-591 of the source. -/
structure CalListEntry where
  id : String
  summary : String
deriving DecidableEq, Repr

/-- How import_ics resolved the target calendar. -/
inductive CalSetupResult where
  | groupId (id : String)
  | existing (id : String)
  | createdNew (id : String)
deriving DecidableEq, Repr

/-- Whether the resolution created a brand-new calendar (a calendar
insert call against the store). -/
def CalSetupResult.didCreate : CalSetupResult → Bool
  | .createdNew _ => true
  | _ => false

/-- Shallow embedding of the calendar-resolution step of import_ics
(lines 582-607 of the source): a name matching the group-calendar-id
pattern is used as the calendar id directly; otherwise the account's
calendar list is filtered by summary, and when no calendar matches a
brand-new calendar is inserted (newId models the id the service assigns
to it).  The step never consults the dry-run flag: the source code of
this region contains no reference to dry_run, so the parameter is
received and ignored, exactly as the source behaves. -/
def import_ics_calendar_setup (calendarName : String)
    (calendarList : List CalListEntry) (newId : String)
    (_dryRun : Bool) : CalSetupResult :=
  if matchesGroupCal calendarName then
    .groupId calendarName
  else
    match (calendarList.filter (fun x => x.summary == calendarName)).map
        (fun x => x.id) with
    | [] => .createdNew newId
    | c :: _ => .existing c

/- Concrete fixtures used by the theorems below. -/

/-- A desired event with identity X, as produced by ics_to_gcal from a
plain ICS event (defaults: opaque transparency, confirmed status). -/
def sampleDesired : GEvent :=
  { iCalUID := "X", summary := some "New", description := some "",
    location := some "", start := some 10, endTime := some 20,
    recurrence := [], transparency := some "opaque",
    status := some "confirmed", sequence := none, eventId := 0 }

/-- A remote event with identity X differing from sampleDesired in its
summary, stored under handle 7. -/
def sampleRemoteOld : GEvent :=
  { sampleDesired with summary := some "Old", eventId := 7 }

/-- The empty concrete store (fresh handles start at 100). -/
def emptyStore : FStore := ⟨[], [], 100⟩

/-- Whether a feed has no recurrence-instance item. -/
def instFree (feed : List FeedItem) : Prop :=
  ∀ it ∈ feed, it.hasRecurrenceId = false

instance : DecidablePred instFree := fun feed =>
  inferInstanceAs (Decidable (∀ it ∈ feed, it.hasRecurrenceId = false))

/-- Well-formedness of a concrete store state: the event handles are
pairwise distinct and below the fresh-handle counter. -/
def idsWF (S : FStore) : Prop :=
  (S.events.map (fun e => e.eventId)).Nodup ∧
  ∀ e ∈ S.events, e.eventId < S.nextId

/-- The identities of the non-duplicate ledger entries: created, updated,
untouched and failed. -/
def cuufUids (L : Ledger) : List String :=
  (L.created ++ L.updated ++ L.untouched).map (fun e => e.iCalUID) ++
    L.failed.map FailedEntry.theUid

/- Order-theoretic facts about the string comparison used by the sort. -/

theorem charsLe_total (as bs : List Char) : charsLe as bs = true ∨ charsLe bs as = true := by
  induction as generalizing bs with
  | nil => left; rfl
  | cons a as ih =>
      cases bs with
      | nil => right; rfl
      | cons b bs =>
          by_cases h1 : a.toNat < b.toNat
          · left; simp [charsLe, h1]
          · by_cases h2 : b.toNat < a.toNat
            · right; simp [charsLe, h2]
            · rcases ih bs with h | h
              · left; simp [charsLe, h1, h2, h]
              · right; simp [charsLe, h1, h2, h]

theorem charsLe_trans {as bs cs : List Char} (h1 : charsLe as bs = true)
    (h2 : charsLe bs cs = true) : charsLe as cs = true := by
  induction as generalizing bs cs with
  | nil => rfl
  | cons a as ih =>
      cases bs with
      | nil => simp [charsLe] at h1
      | cons b bs =>
          cases cs with
          | nil => simp [charsLe] at h2
          | cons c cs =>
              simp only [charsLe] at h1 h2 ⊢
              split_ifs at h1 h2 ⊢ <;>
                first
                | rfl
                | omega
                | (exact ih h1 h2)

theorem charsLe_antisymm {as bs : List Char} (h1 : charsLe as bs = true)
    (h2 : charsLe bs as = true) : as = bs := by
  induction as generalizing bs with
  | nil => cases bs with
      | nil => rfl
      | cons b bs => simp [charsLe] at h2
  | cons a as ih =>
      cases bs with
      | nil => simp [charsLe] at h1
      | cons b bs =>
          simp only [charsLe] at h1 h2
          by_cases hab : a.toNat < b.toNat
          · have hba : ¬ b.toNat < a.toNat := by omega
            simp [hab, hba] at h2
          · by_cases hba : b.toNat < a.toNat
            · simp [hab, hba] at h1
            · rw [if_neg hab, if_neg hba] at h1
              rw [if_neg hba, if_neg hab] at h2
              have hv : a.toNat = b.toNat := by omega
              have hc : a = b := Char.eq_of_val_eq (UInt32.toNat.inj hv)
              rw [hc, ih h1 h2]

/-- The Prop form of the sorting relation. -/
abbrev strLeRel : String → String → Prop := fun a b => strLe a b = true

instance : IsTotal String strLeRel :=
  ⟨fun a b => charsLe_total a.data b.data⟩

instance : IsTrans String strLeRel :=
  ⟨fun _ _ _ h1 h2 => charsLe_trans h1 h2⟩

instance : IsAntisymm String strLeRel :=
  ⟨fun a b h1 h2 => by
    have h := @charsLe_antisymm a.data b.data h1 h2
    cases a; cases b; exact congrArg String.mk h⟩

theorem sortStrings_perm (l : List String) : (sortStrings l).Perm l :=
  List.perm_insertionSort _ l

theorem sortStrings_sorted (l : List String) :
    List.Sorted (fun a b => strLe a b = true) (sortStrings l) :=
  List.sorted_insertionSort _ l

theorem sortStrings_eq_of_perm {l1 l2 : List String} (h : l1.Perm l2) :
    sortStrings l1 = sortStrings l2 :=
  List.eq_of_perm_of_sorted
    (((sortStrings_perm l1).trans h).trans (sortStrings_perm l2).symm)
    (sortStrings_sorted l1) (sortStrings_sorted l2)

/- Reflexivity and symmetry of the comparison building blocks. -/

theorem listSetEq_refl (l : List String) : listSetEq l l = true := by
  simp only [listSetEq, List.all_eq_true, Bool.and_self]
  intro x hx
  exact List.elem_iff.2 hx

theorem ruleEq_refl (r : String) : ruleEq r r = true :=
  listSetEq_refl _

theorem ruleEq_symm (r1 r2 : String) : ruleEq r1 r2 = ruleEq r2 r1 := by
  simp only [ruleEq, listSetEq]
  rw [Bool.and_comm]

theorem zipSelfAll (l : List String) :
    (l.zip l).all (fun ab => ruleEq ab.1 ab.2) = true := by
  induction l with
  | nil => rfl
  | cons a l ih => simp [List.zip_cons_cons, ruleEq_refl, ih]

theorem recurrenceEq_refl (l : List String) : recurrenceEq l l = true := by
  simp [recurrenceEq, zipSelfAll]

theorem recurrenceEq_of_perm {l1 l2 : List String} (h : l1.Perm l2) :
    recurrenceEq l1 l2 = true := by
  unfold recurrenceEq
  rw [if_neg (by simp [h.length_eq])]
  rw [sortStrings_eq_of_perm h]
  exact zipSelfAll _

theorem zipAllComm (l1 l2 : List String) :
    (l1.zip l2).all (fun ab => ruleEq ab.1 ab.2) =
    (l2.zip l1).all (fun ab => ruleEq ab.1 ab.2) := by
  induction l1 generalizing l2 with
  | nil => cases l2 <;> rfl
  | cons a l1 ih =>
      cases l2 with
      | nil => rfl
      | cons b l2 => simp [List.zip_cons_cons, ruleEq_symm a b, ih l2]

theorem recurrenceEq_symm (p1 p2 : List String) :
    recurrenceEq p1 p2 = recurrenceEq p2 p1 := by
  unfold recurrenceEq
  by_cases h : p1.length = p2.length
  · rw [if_neg (by simp [h]), if_neg (by simp [h]), zipAllComm]
  · rw [if_pos h, if_pos (fun hh => h hh.symm)]

theorem beqOptStr_comm (a b : Option String) : (a == b) = (b == a) := by
  by_cases h : a = b
  · rw [h]
  · rw [beq_eq_false_iff_ne.2 h, beq_eq_false_iff_ne.2 (Ne.symm h)]

theorem beqOptNat_comm (a b : Option Nat) : (a == b) = (b == a) := by
  by_cases h : a = b
  · rw [h]
  · rw [beq_eq_false_iff_ne.2 h, beq_eq_false_iff_ne.2 (Ne.symm h)]

theorem optStrEq_symm (p1 p2 : Option String) : optStrEq p1 p2 = optStrEq p2 p1 := by
  simp only [optStrEq]
  rw [Bool.and_comm, beqOptStr_comm]

theorem transparencyEq_symm (p1 p2 : Option String) :
    transparencyEq p1 p2 = transparencyEq p2 p1 := by
  simp only [transparencyEq]
  rw [Bool.and_comm, beqOptStr_comm, Bool.and_comm (opaqueLike p1)]

theorem statusEq_symm (p1 p2 : Option String) : statusEq p1 p2 = statusEq p2 p1 := by
  simp only [statusEq]
  rw [Bool.and_comm, beqOptStr_comm, Bool.and_comm (confirmedLike p1)]

theorem optNatEq_symm (p1 p2 : Option Nat) : optNatEq p1 p2 = optNatEq p2 p1 := by
  simp only [optNatEq]
  rw [Bool.and_comm, beqOptNat_comm]

theorem gcal_compare_symm (e1 e2 : GEvent) (ig : Bool) :
    gcal_compare e1 e2 ig = gcal_compare e2 e1 ig := by
  simp only [gcal_compare]
  rw [optStrEq_symm e1.summary, optStrEq_symm e1.description,
    optStrEq_symm e1.location, optNatEq_symm e1.start, optNatEq_symm e1.endTime,
    recurrenceEq_symm e1.recurrence, transparencyEq_symm e1.transparency,
    statusEq_symm e1.status, optNatEq_symm e1.sequence]

theorem optStrEq_refl (p : Option String) : optStrEq p p = true := by
  simp [optStrEq]

theorem optNatEq_refl (p : Option Nat) : optNatEq p p = true := by
  simp [optNatEq]

theorem transparencyEq_refl (p : Option String) : transparencyEq p p = true := by
  simp [transparencyEq]

theorem statusEq_refl (p : Option String) : statusEq p p = true := by
  simp [statusEq]

/-- The created event returned by the faithful store differs from the
desired one only in its handle, and the comparison ignores handles. -/
theorem gcal_compare_set_id (e : GEvent) (n : Nat) (ig : Bool) :
    gcal_compare { e with eventId := n } e ig = true := by
  simp [gcal_compare, optStrEq_refl, optNatEq_refl, transparencyEq_refl,
    statusEq_refl, recurrenceEq_refl]

theorem gcal_compare_set_id' (e : GEvent) (n : Nat) (ig : Bool) :
    gcal_compare e { e with eventId := n } ig = true := by
  rw [gcal_compare_symm]
  exact gcal_compare_set_id e n ig

/- Facts about copyFields. -/

theorem copyFields_eventId (R D : GEvent) : (copyFields R D).eventId = R.eventId := by
  unfold copyFields
  split <;> rfl

theorem copyFields_iCalUID (R D : GEvent) : (copyFields R D).iCalUID = R.iCalUID := by
  unfold copyFields
  split <;> rfl

theorem copyFields_idem (R D : GEvent) :
    copyFields (copyFields R D) D = copyFields R D := by
  unfold copyFields
  by_cases h : statusTruthy D.status
  · simp [h]
  · simp [h]

/- Claim C7: recurrence equality. -/

/-- An event carrying the first rule of the spec example. -/
def c7EventA : GEvent :=
  { sampleDesired with recurrence := ["FREQ=WEEKLY;BYDAY=MO,TU"] }

/-- An event carrying the spec example's second rule, with the comma
list inside BYDAY reordered. -/
def c7EventB : GEvent :=
  { sampleDesired with recurrence := ["BYDAY=TU,MO;FREQ=WEEKLY"] }

/-- An event carrying a rule whose semicolon-separated parts are
reordered but whose parts are literally those of c7EventA. -/
def c7EventC : GEvent :=
  { sampleDesired with recurrence := ["BYDAY=MO,TU;FREQ=WEEKLY"] }

/-- C7, counterexample.  The claim asserts that the rule
FREQ=WEEKLY;BYDAY=MO,TU equals BYDAY=TU,MO;FREQ=WEEKLY under
gcal_compare's recurrence comparison.  It does not: the comparison
splits a rule at semicolons only, so the parts BYDAY=MO,TU and
BYDAY=TU,MO are distinct literal strings and the part sets differ;
gcal_compare judges two otherwise identical events carrying these two
rules unequal. -/
theorem c7_counterexample :
    gcal_compare c7EventA c7EventB true = false ∧
    recurrenceEq ["FREQ=WEEKLY;BYDAY=MO,TU"] ["BYDAY=TU,MO;FREQ=WEEKLY"] = false := by
  constructor
  · decide
  · decide

/-- C7, amended.  gcal_compare judges recurrence fields equal exactly
when the two lists have the same length and, after sorting both
lexicographically, the rules at equal positions have equal sets of
semicolon-separated parts (a leading RRULE: prefix is ignored).  In
particular a permutation of the rule list compares equal, reordering
the semicolon-separated parts of a rule is tolerated
(FREQ=WEEKLY;BYDAY=MO,TU equals BYDAY=MO,TU;FREQ=WEEKLY), but the
values inside one part are compared literally, so
FREQ=WEEKLY;BYDAY=MO,TU differs from BYDAY=TU,MO;FREQ=WEEKLY; lists
with differing rule counts are unequal. -/
theorem c7_amended :
    (∀ p1 p2 : List String, p1.Perm p2 → recurrenceEq p1 p2 = true) ∧
    (∀ p1 p2 : List String, p1.length ≠ p2.length → recurrenceEq p1 p2 = false) ∧
    gcal_compare c7EventA c7EventC true = true ∧
    gcal_compare c7EventA c7EventB true = false := by
  refine ⟨fun p1 p2 h => recurrenceEq_of_perm h, fun p1 p2 h => ?_, by decide, by decide⟩
  unfold recurrenceEq
  rw [if_pos h]

/-- C7, witness for the amended theorem: its universally quantified
parts applied at concrete inputs. -/
theorem c7_witness :
    recurrenceEq ["B", "A"] ["A", "B"] = true ∧
    recurrenceEq ["A", "B"] ["A"] = false :=
  ⟨c7_amended.1 ["B", "A"] ["A", "B"] (by decide),
   c7_amended.2.1 ["A", "B"] ["A"] (by decide)⟩

/- Claim C4: the revision gate. -/

/-- The stored remote event of the revision-gate example: identity X,
stale summary, and a parametric stored revision. -/
def c4Remote (sR : Option Nat) : GEvent :=
  { sampleRemoteOld with sequence := sR }

/-- The desired event of the revision-gate example: identity X, new
summary, and a parametric feed revision. -/
def c4Desired (sF : Option Nat) : GEvent :=
  { sampleDesired with sequence := sF }

/-- C4, counterexample.  The spec's own example: desired revision 3
against stored revision 5 with differing fields and the override unset
should give untouched.  The code updates the event instead: import_events
calls gcal_compare with ignore_sequence always True, no revision gate
exists anywhere, and no override flag exists either. -/
theorem c4_counterexample :
    (import_events faithfulStore ⟨[c4Remote (some 5)], [], 100⟩
        [⟨false, c4Desired (some 3)⟩] false).map
      (fun r => (r.1.updated.map (fun e => e.iCalUID), r.1.untouched)) =
    .ok (["X"], []) := by
  rfl

/-- C4, amended.  import_events never consults revisions: every
gcal_compare call it makes passes ignore_sequence as True, and with that
flag gcal_compare is insensitive to the sequence fields of both events;
consequently an item whose fields differ is updated (never left
untouched) regardless of the revision ordering, and the source has no
override flag at all.  The second conjunct runs the reconciliation at
the spec's numbers (desired revision 3, stored revision 5) and at the
reversed and absent revisions: the outcome is updated in each case. -/
theorem c4_amended :
    (∀ (e1 e2 : GEvent) (s1 s2 : Option Nat),
      gcal_compare { e1 with sequence := s1 } { e2 with sequence := s2 } true =
        gcal_compare e1 e2 true) ∧
    (∀ sR sF : Option Nat,
      (import_events faithfulStore ⟨[c4Remote sR], [], 100⟩
          [⟨false, c4Desired sF⟩] false).map
        (fun r => (r.1.updated.map (fun e => e.iCalUID), r.1.untouched)) =
      .ok (["X"], [])) := by
  constructor
  · intro e1 e2 s1 s2
    simp [gcal_compare]
  · intro sR sF
    cases sR <;> cases sF <;> rfl

/- Claim C6: fringe-sweep suppression. -/

/-- A remote event with identity A. -/
def c6EventA : GEvent := { sampleDesired with iCalUID := "A", eventId := 1 }

/-- A remote event with identity B. -/
def c6EventB : GEvent := { sampleDesired with iCalUID := "B", eventId := 2 }

/-- A store holding the two fringe events A and B. -/
def c6Store : FStore := ⟨[c6EventA, c6EventB], [], 100⟩

/-- C6, the code bug evaluated.  The guard at line 635 of the source
tests the truthiness of the gcal_changes dictionary, which always has
its six keys and is therefore always truthy: the sweep-suppression
branch is unreachable.  With the delete flag set, dry-run off and an
outcome ledger whose six lists are all empty, the sweep runs anyway and
deletes every remote event (here both A and B), exactly the behaviour
the specification says must be suppressed. -/
theorem c6_theorem :
    (∀ (L : Ledger) (d : Bool), fringe_sweep_runs true L d = true) ∧
    (delete_other_events faithfulStore c6Store Ledger.init 0 false false).map
        (fun r => (r.1, (r.2.1).events)) = .ok (2, []) ∧
    (import_ics_sweep faithfulStore c6Store Ledger.init 0 true false).map
        (fun o => o.map (fun r => r.1)) = .ok (some 2) := by
  refine ⟨fun L d => rfl, by rfl, by rfl⟩

/- Claim C9: already-gone deletions. -/

/-- A remote fringe event with identity C (absent from any ledger). -/
def c9Event : GEvent := { sampleDesired with iCalUID := "C", eventId := 11 }

/-- A store holding only the fringe event C. -/
def c9Store : FStore := ⟨[c9Event], [], 100⟩

/-- C9, counterexample.  During fringe-event deletion a 410 Gone
response is not treated as success: delete_other_events has no exception
handling at all (line 464 of the source), so the store exception
propagates and aborts the sweep instead of continuing. -/
theorem c9_counterexample :
    delete_other_events gone410Store c9Store Ledger.init 0 false false =
      .error "410" := by
  rfl

/-- Helper: against a store whose every delete raises 410, the clear
loop counts every event as deleted and keeps going. -/
theorem clearLoop_gone410 (evs : List GEvent) (k : Nat) (s : FStore) :
    clearLoop gone410Store false evs (k, s) = .ok (k + evs.length, s) := by
  induction evs generalizing k with
  | nil => rfl
  | cons ev rest ih =>
      show clearLoop gone410Store false rest (k + 1, s) = _
      rw [ih (k + 1)]
      congr 2
      simp only [List.length_cons]
      omega

/-- C9, amended.  The already-gone tolerance lives in gcal_clear, not in
the fringe sweep: during the clear-before-import deletion a 410 Gone
exception is swallowed and the deletion still counted, for every store
state, while any other status (here 500) is re-raised; during
fringe-event deletion (delete_other_events) there is no handling at all
and even a 410 aborts the sweep. -/
theorem c9_amended :
    (∀ s : FStore, gcal_clear gone410Store s false = .ok ((fstoreGetAll s 0).length, s)) ∧
    gcal_clear delete500Store c9Store false = .error "500" ∧
    delete_other_events gone410Store c9Store Ledger.init 0 false false = .error "410" := by
  refine ⟨fun s => ?_, by rfl, by rfl⟩
  show clearLoop gone410Store false (fstoreGetAll s 0) (0, s) = _
  simpa using clearLoop_gone410 (fstoreGetAll s 0) 0 s

/- Claim C10: creation of a missing target calendar. -/

/-- C10, confirmed.  When the requested calendar name does not match the
group-calendar-id pattern and no calendar in the account's list carries
it as summary, import_ics inserts a brand-new calendar before any
reconciliation, for every value of the dry-run flag: the source's
calendar-resolution block (lines 582-607) never reads dry_run. -/
theorem c10_theorem (name : String) (cals : List CalListEntry) (newId : String)
    (dryRun : Bool) (hm : matchesGroupCal name = false)
    (hn : ∀ e ∈ cals, e.summary ≠ name) :
    import_ics_calendar_setup name cals newId dryRun = .createdNew newId := by
  unfold import_ics_calendar_setup
  rw [if_neg (by simp [hm])]
  have hf : cals.filter (fun x => x.summary == name) = [] := by
    rw [List.filter_eq_nil_iff]
    intro a ha
    simpa using hn a ha
  rw [hf]
  rfl

/-- C10, witness: the theorem applied with dry-run active and a
calendar list not containing the requested name. -/
theorem c10_witness :
    import_ics_calendar_setup "Team" [⟨"id1", "Other"⟩] "fresh" true =
      .createdNew "fresh" :=
  c10_theorem "Team" [⟨"id1", "Other"⟩] "fresh" true (by decide) (by decide)

/- Claim C3: create path with verification. -/

/-- The event the status-mangling store returns for sampleDesired: the
desired fields with the fresh handle and a cancelled status. -/
def cancelledResult : GEvent :=
  { sampleDesired with eventId := 100, status := some "cancelled" }

/-- C3, counterexample.  Against a store exhibiting the cancelled-status
quirk the source documents, creating sampleDesired yields a state that
fails verification, the corrective update is issued and fails
verification again - and the item is still classified created, not
failed: line 430 of the source appends to created unconditionally.  The
conjuncts: the ledger records created = [X] and no failed entry, the
final state still fails verification against the desired event, and the
trace shows the create followed by exactly one corrective update. -/
theorem c3_counterexample :
    (import_events cancelStatusStore emptyStore [⟨false, sampleDesired⟩] false).map
        (fun r => (r.1.created, r.1.failed, r.2.2)) =
      .ok ([cancelledResult], [],
        [StoreOp.queryByUid "X", StoreOp.create "X", StoreOp.update 100]) ∧
    gcal_compare sampleDesired cancelledResult true = false := by
  constructor
  · rfl
  · decide

/-- C3, amended.  For a desired event with no remote counterpart the
Reconciler creates it; when the creation result fails verification it
performs exactly one corrective update; the outcome is created whether
or not the re-verification succeeds (the source only logs the second
verification); failed arises only when the create call itself raises,
and an exception of the corrective update propagates (claim C5's
domain).  First conjunct: creation verifying cleanly.  Second conjunct:
creation failing verification, corrective update issued, outcome still
created. -/
theorem c3_amended :
    (∀ (σ : Type) (M : StoreModel σ) (s : σ) (D res : GEvent) (s1 : σ),
      M.getByUid s D.iCalUID = [] →
      M.importEvent s D = .ok (res, s1) →
      gcal_compare D res true = true →
      import_events M s [⟨false, D⟩] false =
        .ok ({ Ledger.init with created := [res] }, s1,
             [StoreOp.queryByUid D.iCalUID, StoreOp.create D.iCalUID])) ∧
    (∀ (σ : Type) (M : StoreModel σ) (s : σ) (D res : GEvent) (s1 : σ)
        (res2 : GEvent) (s2 : σ),
      M.getByUid s D.iCalUID = [] →
      M.importEvent s D = .ok (res, s1) →
      gcal_compare D res true = false →
      M.updateEvent s1 (copyFields res D) = .ok (res2, s2) →
      import_events M s [⟨false, D⟩] false =
        .ok ({ Ledger.init with created := [res2] }, s2,
             [StoreOp.queryByUid D.iCalUID, StoreOp.create D.iCalUID,
              StoreOp.update (copyFields res D).eventId])) := by
  constructor
  · intro σ M s D res s1 h1 h2 h3
    simp [import_events, runItems, processItem, createPath, gcal_get_event,
      h1, h2, h3, Ledger.init]
  · intro σ M s D res s1 res2 s2 h1 h2 h3 h4
    simp [import_events, runItems, processItem, createPath, gcal_get_event,
      h1, h2, h3, h4, Ledger.init, List.append_assoc]

/-- C3, witness: the amended theorem's corrective branch applied to the
cancelled-status store at concrete inputs. -/
theorem c3_witness :
    import_events cancelStatusStore emptyStore [⟨false, sampleDesired⟩] false =
      .ok ({ Ledger.init with created := [cancelledResult] },
           (⟨[cancelledResult], [], 101⟩ : FStore),
           [StoreOp.queryByUid "X", StoreOp.create "X", StoreOp.update 100]) :=
  c3_amended.2 FStore cancelStatusStore emptyStore sampleDesired
    cancelledResult ⟨[cancelledResult], [], 101⟩ cancelledResult
    ⟨[cancelledResult], [], 101⟩ (by rfl) (by rfl) (by decide) (by rfl)

/- Claim C5: per-item failure isolation. -/

/-- C5, counterexample.  A store exception during the update of a single
feed item is not caught: the update_event call at line 348 of the source
sits outside any try, so the exception aborts the whole run instead of
being recorded as failed and processing continuing. -/
theorem c5_counterexample :
    import_events updateFailStore ⟨[sampleRemoteOld], [], 100⟩
      [⟨false, sampleDesired⟩] false = .error "500" := by
  rfl

/-- C5, amended.  Only the initial create call is isolated per item: an
exception of import_event is caught, recorded as failed with the event,
and the run continues with the next feed item (first conjunct, stated as
an equation on the remaining run).  An exception during update_event -
updating an existing event (second conjunct) or the corrective update
after a create (third conjunct) - propagates and aborts the whole
run. -/
theorem c5_amended :
    (∀ (σ : Type) (M : StoreModel σ) (st : RunState σ) (D : GEvent)
        (rest : List FeedItem) (err : String),
      st.processed.contains D.iCalUID = false →
      M.getByUid st.store D.iCalUID = [] →
      M.importEvent st.store D = .error err →
      runItems M false (⟨false, D⟩ :: rest) st =
        runItems M false rest
          { st with
            ledger.failed := st.ledger.failed ++ [FailedEntry.ev D],
            processed := st.processed ++ [D.iCalUID],
            trace := st.trace ++ [StoreOp.queryByUid D.iCalUID, StoreOp.create D.iCalUID] }) ∧
    (∀ (σ : Type) (M : StoreModel σ) (s : σ) (D R : GEvent) (l : List GEvent)
        (err : String),
      M.getByUid s D.iCalUID = R :: l →
      gcal_compare R D true = false →
      M.updateEvent s (copyFields R D) = .error err →
      import_events M s [⟨false, D⟩] false = .error err) ∧
    (∀ (σ : Type) (M : StoreModel σ) (s : σ) (D res : GEvent) (s1 : σ)
        (err : String),
      M.getByUid s D.iCalUID = [] →
      M.importEvent s D = .ok (res, s1) →
      gcal_compare D res true = false →
      M.updateEvent s1 (copyFields res D) = .error err →
      import_events M s [⟨false, D⟩] false = .error err) := by
  refine ⟨?_, ?_, ?_⟩
  · intro σ M st D rest err h0 h1 h2
    have h0' : ¬ D.iCalUID ∈ st.processed := by simpa using h0
    simp [runItems, processItem, createPath, gcal_get_event, h0', h1, h2,
      List.append_assoc]
  · intro σ M s D R l err h1 h2 h3
    simp [import_events, runItems, processItem, updatePath, gcal_get_event,
      h1, h2, h3]
  · intro σ M s D res s1 err h1 h2 h3 h4
    simp [import_events, runItems, processItem, createPath, gcal_get_event,
      h1, h2, h3, h4]

/-- C5, witness: the abort branch of the amended theorem applied to the
update-failing store at concrete inputs. -/
theorem c5_witness :
    import_events updateFailStore ⟨[sampleRemoteOld], [], 100⟩
      [⟨false, sampleDesired⟩] false = .error "500" :=
  c5_amended.2.1 FStore updateFailStore ⟨[sampleRemoteOld], [], 100⟩
    sampleDesired sampleRemoteOld [] "500" (by rfl) (by decide) (by rfl)

/- Claim C8: dry-run. -/

/-- A second desired event with identity Y and no remote counterpart. -/
def sampleDesiredY : GEvent := { sampleDesired with iCalUID := "Y" }

/-- C8, counterexample.  A dry run over a feed whose first item needs an
update (remote X differs) and whose second item needs a create (no
remote Y): the store is untouched and only queries are issued, but the
outcome ledger is completely empty - the source logs the hypothetical
update/create and appends nothing (lines 342-346 and 362-367), so the
intended action kinds are not recorded for the processed items. -/
theorem c8_counterexample :
    import_events faithfulStore ⟨[sampleRemoteOld], [], 100⟩
      [⟨false, sampleDesired⟩, ⟨false, sampleDesiredY⟩] true =
    .ok (Ledger.init, ⟨[sampleRemoteOld], [], 100⟩,
         [StoreOp.queryByUid "X", StoreOp.queryByUid "Y"]) := by
  rfl

/-- Extension relation between run states produced by a dry run: the
store is unchanged, the created and updated ledger lists are unchanged,
and every new trace operation is a query. -/
def DryExtend (st st' : RunState σ) : Prop :=
  st'.store = st.store ∧
  st'.ledger.created = st.ledger.created ∧
  st'.ledger.updated = st.ledger.updated ∧
  ∀ op ∈ st'.trace, op ∈ st.trace ∨ op.isMutation = false

theorem dryExtend_refl (st : RunState σ) : DryExtend st st :=
  ⟨rfl, rfl, rfl, fun _ h => Or.inl h⟩

theorem dryExtend_trans {st1 st2 st3 : RunState σ} (h1 : DryExtend st1 st2)
    (h2 : DryExtend st2 st3) : DryExtend st1 st3 := by
  obtain ⟨a1, b1, c1, d1⟩ := h1
  obtain ⟨a2, b2, c2, d2⟩ := h2
  refine ⟨a2.trans a1, b2.trans b1, c2.trans c1, fun op hop => ?_⟩
  rcases d2 op hop with h | h
  · exact d1 op h
  · exact Or.inr h

theorem updatePath_dryRun (M : StoreModel σ) (st : RunState σ) (D R : GEvent) :
    ∃ st', updatePath M true st D R = .ok st' ∧ DryExtend st st' := by
  unfold updatePath
  split
  · exact ⟨_, rfl, rfl, rfl, rfl, fun _ h => Or.inl h⟩
  · exact ⟨st, rfl, dryExtend_refl st⟩

theorem queryTraceExtend (st : RunState σ) (ops : List StoreOp)
    (hq : ∀ op ∈ ops, op.isMutation = false) :
    ∀ op ∈ st.trace ++ ops, op ∈ st.trace ∨ op.isMutation = false := by
  intro op hop
  rcases List.mem_append.1 hop with h | h
  · exact Or.inl h
  · exact Or.inr (hq op h)

theorem instancePath_dryRun (M : StoreModel σ) (st : RunState σ) (D : GEvent) :
    ∃ st', instancePath M true st D = .ok st' ∧ DryExtend st st' := by
  cases hp : gcal_get_event M st.store D.iCalUID with
  | none =>
      refine ⟨{ st with
          ledger.failed := st.ledger.failed ++ [FailedEntry.uid D.iCalUID],
          trace := st.trace ++ [StoreOp.queryByUid D.iCalUID] }, ?_,
        rfl, rfl, rfl, queryTraceExtend st _ (by simp [StoreOp.isMutation])⟩
      simp [instancePath, hp]
  | some parent =>
      have htr := queryTraceExtend st
        [StoreOp.queryByUid D.iCalUID,
         StoreOp.queryInstances parent.eventId D.start D.endTime]
        (by simp [StoreOp.isMutation])
      cases hi : M.getInstances st.store parent D.start D.endTime 2 with
      | error e =>
          refine ⟨{ st with
              ledger.failed := st.ledger.failed ++ [FailedEntry.uid D.iCalUID],
              trace := st.trace ++ [StoreOp.queryByUid D.iCalUID,
                StoreOp.queryInstances parent.eventId D.start D.endTime] }, ?_,
            rfl, rfl, rfl, htr⟩
          simp [instancePath, hp, hi]
      | ok insts =>
          match insts with
          | [] =>
              refine ⟨{ st with
                  ledger.failed := st.ledger.failed ++ [FailedEntry.uid D.iCalUID],
                  trace := st.trace ++ [StoreOp.queryByUid D.iCalUID,
                    StoreOp.queryInstances parent.eventId D.start D.endTime] }, ?_,
                rfl, rfl, rfl, htr⟩
              simp [instancePath, hp, hi]
          | [R] =>
              have hmid : DryExtend st
                  { st with
                    trace := st.trace ++ [StoreOp.queryByUid D.iCalUID,
                      StoreOp.queryInstances parent.eventId D.start D.endTime],
                    processed := st.processed ++ [D.iCalUID] } :=
                ⟨rfl, rfl, rfl, htr⟩
              obtain ⟨st', hrun, hext⟩ := updatePath_dryRun M
                { st with
                  trace := st.trace ++ [StoreOp.queryByUid D.iCalUID,
                    StoreOp.queryInstances parent.eventId D.start D.endTime],
                  processed := st.processed ++ [D.iCalUID] } D R
              refine ⟨st', ?_, dryExtend_trans hmid hext⟩
              rw [← hrun]
              simp [instancePath, hp, hi]
          | _ :: _ :: _ =>
              refine ⟨{ st with
                  ledger.failed := st.ledger.failed ++ [FailedEntry.uid D.iCalUID],
                  trace := st.trace ++ [StoreOp.queryByUid D.iCalUID,
                    StoreOp.queryInstances parent.eventId D.start D.endTime] }, ?_,
                rfl, rfl, rfl, htr⟩
              simp [instancePath, hp, hi]

theorem processItem_dryRun (M : StoreModel σ) (st : RunState σ) (it : FeedItem) :
    ∃ st', processItem M true st it = .ok st' ∧ DryExtend st st' := by
  by_cases hrec : it.hasRecurrenceId
  · obtain ⟨st', h, hext⟩ := instancePath_dryRun M st it.event
    exact ⟨st', by simp [processItem, hrec, h], hext⟩
  · by_cases hdup : it.event.iCalUID ∈ st.processed
    · refine ⟨{ st with
          ledger.duplicates := st.ledger.duplicates ++ [it.event.iCalUID] }, ?_,
        rfl, rfl, rfl, fun op hop => Or.inl hop⟩
      simp [processItem, hrec, hdup]
    · cases hr : gcal_get_event M st.store it.event.iCalUID with
      | some R =>
          have hmid : DryExtend st
              { st with
                trace := st.trace ++ [StoreOp.queryByUid it.event.iCalUID],
                processed := st.processed ++ [it.event.iCalUID] } :=
            ⟨rfl, rfl, rfl, queryTraceExtend st _ (by simp [StoreOp.isMutation])⟩
          obtain ⟨st', hrun, hext⟩ := updatePath_dryRun M
            { st with
              trace := st.trace ++ [StoreOp.queryByUid it.event.iCalUID],
              processed := st.processed ++ [it.event.iCalUID] } it.event R
          refine ⟨st', ?_, dryExtend_trans hmid hext⟩
          rw [← hrun]
          simp [processItem, hrec, hdup, hr]
      | none =>
          refine ⟨{ st with
              trace := st.trace ++ [StoreOp.queryByUid it.event.iCalUID],
              processed := st.processed ++ [it.event.iCalUID] }, ?_,
            rfl, rfl, rfl, queryTraceExtend st _ (by simp [StoreOp.isMutation])⟩
          simp [processItem, hrec, hdup, hr, createPath]

theorem runItems_dryRun (M : StoreModel σ) (feed : List FeedItem)
    (st : RunState σ) :
    ∃ st', runItems M true feed st = .ok st' ∧ DryExtend st st' := by
  induction feed generalizing st with
  | nil => exact ⟨st, rfl, dryExtend_refl st⟩
  | cons it rest ih =>
      obtain ⟨st1, h1, hext1⟩ := processItem_dryRun M st it
      obtain ⟨st', h', hext'⟩ := ih st1
      exact ⟨st', by simp [runItems, h1, h'], dryExtend_trans hext1 hext'⟩

/-- C8, amended.  In dry-run no store mutation occurs: for every store
model, store state and feed, the run succeeds, the store state is
returned unchanged, every trace operation is a query, and the created
and updated ledger lists are empty.  The ledger is however not populated
with the intended action kinds: items whose computed action was a create
or an update leave no ledger entry at all (the counterexample shows the
ledger completely empty), only untouched, duplicate and
instance-lookup-failed entries are still recorded. -/
theorem c8_amended (σ : Type) (M : StoreModel σ) (s : σ) (feed : List FeedItem) :
    ∃ L tr, import_events M s feed true = .ok (L, s, tr) ∧
      L.created = [] ∧ L.updated = [] ∧ ∀ op ∈ tr, op.isMutation = false := by
  obtain ⟨st', hrun, hstore, hcr, hup, htr⟩ :=
    runItems_dryRun M feed ⟨s, [], Ledger.init, []⟩
  refine ⟨st'.ledger, st'.trace, ?_, hcr, hup, fun op hop => ?_⟩
  · simp [import_events, hrun, hstore]
  · rcases htr op hop with h | h
    · simp at h
    · exact h

/- Claim C2: one ledger entry per identity, duplicates short-circuited. -/

/-- A stored series event with identity X under handle 7, equal (up to
handle) to sampleDesired. -/
def c2Series : GEvent := { sampleDesired with eventId := 7 }

/-- A stored instance of that series under handle 8, inside the window
of sampleDesired. -/
def c2Instance : GEvent := { sampleDesired with eventId := 8 }

/-- A store holding the series X and one instance of it. -/
def c2Store : FStore := ⟨[c2Series], [(7, c2Instance)], 100⟩

/-- C2, counterexample.  A feed with two items of identity X, the second
being a recurrence-instance item: the second item is not classified
duplicate (duplicates stays empty), it does reach the Calendar Store
(the trace shows its parent lookup and instance query), and the ledger
ends with two non-duplicate entries for the identity X - the duplicate
check at line 313 of the source is an elif behind the RECURRENCE-ID
test, so instance items bypass it. -/
theorem c2_counterexample :
    import_events faithfulStore c2Store
      [⟨false, sampleDesired⟩, ⟨true, sampleDesired⟩] false =
    .ok ({ Ledger.init with untouched := [c2Series, c2Instance] }, c2Store,
      [StoreOp.queryByUid "X", StoreOp.queryByUid "X",
       StoreOp.queryInstances 7 (some 10) (some 20)]) := by
  rfl

theorem getByUid_head {S : FStore} {u : String} {R : GEvent}
    (h : gcal_get_event faithfulStore S u = some R) :
    R ∈ S.events ∧ R.iCalUID = u := by
  have hm : R ∈ fstoreGetByUid S u :=
    List.mem_of_mem_head? (Option.mem_def.2 h)
  have := List.mem_filter.1 hm
  exact ⟨this.1, by simpa using this.2⟩

theorem cuufUids_append_untouched (L : Ledger) (R : GEvent) (u : String) :
    (cuufUids { L with untouched := L.untouched ++ [R] }).count u =
      (cuufUids L).count u + (if u = R.iCalUID then 1 else 0) := by
  simp only [cuufUids, List.map_append, List.count_append, List.append_assoc]
  by_cases h : u = R.iCalUID <;>
    simp [List.count_cons, h, eq_comm] <;> omega

theorem cuufUids_append_updated (L : Ledger) (R : GEvent) (u : String) :
    (cuufUids { L with updated := L.updated ++ [R] }).count u =
      (cuufUids L).count u + (if u = R.iCalUID then 1 else 0) := by
  simp only [cuufUids, List.map_append, List.count_append, List.append_assoc]
  by_cases h : u = R.iCalUID <;>
    simp [List.count_cons, h, eq_comm] <;> omega

theorem cuufUids_append_created (L : Ledger) (R : GEvent) (u : String) :
    (cuufUids { L with created := L.created ++ [R] }).count u =
      (cuufUids L).count u + (if u = R.iCalUID then 1 else 0) := by
  simp only [cuufUids, List.map_append, List.count_append, List.append_assoc]
  by_cases h : u = R.iCalUID <;>
    simp [List.count_cons, h, eq_comm] <;> omega

theorem cuufUids_append_failed (L : Ledger) (e : FailedEntry) (u : String) :
    (cuufUids { L with failed := L.failed ++ [e] }).count u =
      (cuufUids L).count u + (if u = e.theUid then 1 else 0) := by
  simp only [cuufUids, List.map_append, List.count_append, List.append_assoc]
  by_cases h : u = e.theUid <;>
    simp [List.count_cons, h, eq_comm] <;> omega

theorem faithful_update (s : FStore) (e : GEvent) :
    faithfulStore.updateEvent s e = .ok (e, fstoreReplace s e) := rfl

theorem faithful_import (s : FStore) (e : GEvent) :
    faithfulStore.importEvent s e =
      .ok ({ e with eventId := s.nextId },
        { s with
          events := s.events ++ [{ e with eventId := s.nextId }],
          nextId := s.nextId + 1 }) := rfl

/-- One non-instance feed item processed against the faithful store:
processing always succeeds, the processed set gains the item's identity,
and exactly one ledger entry is appended - a duplicate entry when the
identity was already processed, a non-duplicate (created, updated,
untouched or failed) entry otherwise. -/
theorem processItem_faithful_counts (st : RunState FStore) (D : GEvent) :
    ∃ st', processItem faithfulStore false st ⟨false, D⟩ = .ok st' ∧
      (∀ u, u ∈ st'.processed ↔ u ∈ st.processed ∨ u = D.iCalUID) ∧
      (∀ u, (cuufUids st'.ledger).count u = (cuufUids st.ledger).count u +
         (if D.iCalUID ∈ st.processed then 0 else if u = D.iCalUID then 1 else 0)) ∧
      (∀ u, st'.ledger.duplicates.count u = st.ledger.duplicates.count u +
         (if D.iCalUID ∈ st.processed then (if u = D.iCalUID then 1 else 0) else 0)) := by
  by_cases hdup : D.iCalUID ∈ st.processed
  · refine ⟨{ st with
        ledger.duplicates := st.ledger.duplicates ++ [D.iCalUID] }, ?_, ?_, ?_, ?_⟩
    · simp [processItem, hdup]
    · intro u
      by_cases hu : u = D.iCalUID
      · subst hu; simp [hdup]
      · simp [hu]
    · intro u
      simp [cuufUids, hdup]
    · intro u
      by_cases hu : u = D.iCalUID <;>
        simp [List.count_append, List.count_cons, hdup, hu, eq_comm]
  · have hproc : ∀ (u : String), u ∈ st.processed ++ [D.iCalUID] ↔
        u ∈ st.processed ∨ u = D.iCalUID := by
      intro u
      simp [List.mem_append]
    cases hr : gcal_get_event faithfulStore st.store D.iCalUID with
    | some R =>
        obtain ⟨hRmem, hRuid⟩ := getByUid_head hr
        by_cases hcmp : gcal_compare R D true = true
        · refine ⟨{ st with
              ledger.untouched := st.ledger.untouched ++ [R],
              processed := st.processed ++ [D.iCalUID],
              trace := st.trace ++ [StoreOp.queryByUid D.iCalUID] }, ?_, hproc, ?_, ?_⟩
          · simp [processItem, updatePath, hdup, hr, hcmp]
          · intro u
            rw [show ({ st with
                ledger.untouched := st.ledger.untouched ++ [R],
                processed := st.processed ++ [D.iCalUID],
                trace := st.trace ++ [StoreOp.queryByUid D.iCalUID] } :
                  RunState FStore).ledger =
              { st.ledger with untouched := st.ledger.untouched ++ [R] } from rfl]
            rw [cuufUids_append_untouched, hRuid]
            simp [hdup]
          · intro u
            simp [hdup]
        · have hcmp' : gcal_compare R D true = false := by
            simpa using hcmp
          have hver := gcal_compare_symm D (copyFields R D) true
          by_cases hv : gcal_compare D (copyFields R D) true = true
          · refine ⟨{ st with
                ledger.updated := st.ledger.updated ++ [copyFields R D],
                processed := st.processed ++ [D.iCalUID],
                trace := (st.trace ++ [StoreOp.queryByUid D.iCalUID]) ++
                  [StoreOp.update (copyFields R D).eventId],
                store := fstoreReplace st.store (copyFields R D) }, ?_, hproc, ?_, ?_⟩
            · simp [processItem, updatePath, hdup, hr, hcmp', hv, faithful_update]
            · intro u
              rw [show ({ st with
                  ledger.updated := st.ledger.updated ++ [copyFields R D],
                  processed := st.processed ++ [D.iCalUID],
                  trace := (st.trace ++ [StoreOp.queryByUid D.iCalUID]) ++
                    [StoreOp.update (copyFields R D).eventId],
                  store := fstoreReplace st.store (copyFields R D) } :
                    RunState FStore).ledger =
                { st.ledger with updated := st.ledger.updated ++ [copyFields R D] } from rfl]
              rw [cuufUids_append_updated, copyFields_iCalUID, hRuid]
              simp [hdup]
            · intro u
              simp [hdup]
          · have hv' : gcal_compare D (copyFields R D) true = false := by
              simpa using hv
            refine ⟨{ st with
                ledger.failed := st.ledger.failed ++ [FailedEntry.ev (copyFields R D)],
                processed := st.processed ++ [D.iCalUID],
                trace := (st.trace ++ [StoreOp.queryByUid D.iCalUID]) ++
                  [StoreOp.update (copyFields R D).eventId],
                store := fstoreReplace st.store (copyFields R D) }, ?_, hproc, ?_, ?_⟩
            · simp [processItem, updatePath, hdup, hr, hcmp', hv', faithful_update]
            · intro u
              rw [show ({ st with
                  ledger.failed := st.ledger.failed ++ [FailedEntry.ev (copyFields R D)],
                  processed := st.processed ++ [D.iCalUID],
                  trace := (st.trace ++ [StoreOp.queryByUid D.iCalUID]) ++
                    [StoreOp.update (copyFields R D).eventId],
                  store := fstoreReplace st.store (copyFields R D) } :
                    RunState FStore).ledger =
                { st.ledger with
                  failed := st.ledger.failed ++ [FailedEntry.ev (copyFields R D)] } from rfl]
              rw [cuufUids_append_failed]
              simp [FailedEntry.theUid, copyFields_iCalUID, hRuid, hdup]
            · intro u
              simp [hdup]
    | none =>
        have hcr : gcal_compare D { D with eventId := st.store.nextId } true = true :=
          gcal_compare_set_id' D st.store.nextId true
        refine ⟨{ st with
            ledger.created := st.ledger.created ++ [{ D with eventId := st.store.nextId }],
            processed := st.processed ++ [D.iCalUID],
            trace := (st.trace ++ [StoreOp.queryByUid D.iCalUID]) ++
              [StoreOp.create D.iCalUID],
            store := { st.store with
              events := st.store.events ++ [{ D with eventId := st.store.nextId }],
              nextId := st.store.nextId + 1 } }, ?_, hproc, ?_, ?_⟩
        · simp [processItem, createPath, hdup, hr, hcr, faithful_import]
        · intro u
          rw [show ({ st with
              ledger.created := st.ledger.created ++ [{ D with eventId := st.store.nextId }],
              processed := st.processed ++ [D.iCalUID],
              trace := (st.trace ++ [StoreOp.queryByUid D.iCalUID]) ++
                [StoreOp.create D.iCalUID],
              store := { st.store with
                events := st.store.events ++ [{ D with eventId := st.store.nextId }],
                nextId := st.store.nextId + 1 } } : RunState FStore).ledger =
            { st.ledger with
              created := st.ledger.created ++ [{ D with eventId := st.store.nextId }] } from rfl]
          rw [cuufUids_append_created]
          simp [hdup]
        · intro u
          simp [hdup]

/-- The identities of the items of a feed, in feed order. -/
def feedUids (feed : List FeedItem) : List String :=
  feed.map (fun it => it.event.iCalUID)

/-- Counting invariant of a full instance-free run against the faithful
store: the run succeeds, and per identity the non-duplicate ledger
entries gain one exactly for a first occurrence, while non-duplicate and
duplicate entries together gain one per feed occurrence. -/
theorem runItems_faithful_counts (feed : List FeedItem) (st : RunState FStore)
    (hfree : instFree feed) :
    ∃ st', runItems faithfulStore false feed st = .ok st' ∧
      (∀ u, u ∈ st'.processed ↔ u ∈ st.processed ∨ u ∈ feedUids feed) ∧
      (∀ u, (cuufUids st'.ledger).count u = (cuufUids st.ledger).count u +
        (if u ∈ st.processed then 0 else if u ∈ feedUids feed then 1 else 0)) ∧
      (∀ u, (cuufUids st'.ledger).count u + st'.ledger.duplicates.count u =
        (cuufUids st.ledger).count u + st.ledger.duplicates.count u +
          (feedUids feed).count u) := by
  induction feed generalizing st with
  | nil =>
      exact ⟨st, rfl, fun u => by simp [feedUids],
        fun u => by simp [feedUids], fun u => by simp [feedUids]⟩
  | cons it rest ih =>
      have hit : it.hasRecurrenceId = false := hfree it (by simp)
      have hrest : instFree rest := fun jt hjt => hfree jt (by simp [hjt])
      obtain ⟨itemEvent, hitem⟩ : ∃ D, it = ⟨false, D⟩ :=
        ⟨it.event, by cases it with | mk a b => simp at hit; simp [hit]⟩
      subst hitem
      obtain ⟨st1, h1, hp1, hc1, hd1⟩ := processItem_faithful_counts st itemEvent
      obtain ⟨st', h', hp', hc', hd'⟩ := ih st1 hrest
      refine ⟨st', by simp [runItems, h1, h'], ?_, ?_, ?_⟩
      · intro u
        rw [hp' u, hp1 u]
        simp [feedUids, List.mem_cons]
        tauto
      · intro u
        rw [hc' u, hc1 u]
        have hmem := hp1 u
        by_cases hu : u = itemEvent.iCalUID <;>
          by_cases hin : u ∈ st.processed <;>
            by_cases hrin : u ∈ feedUids rest <;>
              simp_all [feedUids, hp1] <;> omega
      · intro u
        rw [hd' u, hc1 u, hd1 u]
        have : (feedUids (⟨false, itemEvent⟩ :: rest)).count u =
            (if u = itemEvent.iCalUID then 1 else 0) + (feedUids rest).count u := by
          by_cases hu : u = itemEvent.iCalUID <;>
            simp [feedUids, List.count_cons, hu, eq_comm] <;> omega
        rw [this]
        by_cases hu : u = itemEvent.iCalUID <;>
          by_cases hin : u ∈ st.processed <;>
            simp_all [hp1] <;> omega

/-- C2, amended.  First conjunct, for every store model and state: a
non-instance feed item whose identity was already processed
short-circuits - the run appends exactly one duplicate ledger entry for
it and continues with the remaining feed, with the store state, the
operation trace and the processed list unchanged, so the item causes no
Calendar Store access at all.  Second conjunct, for every instance-free
feed: each distinct identity has exactly one non-duplicate ledger entry
(first occurrence wins) and non-duplicate plus duplicate entries
together count one per feed occurrence.  Third conjunct: a feed with two
items of identity X issues exactly two store operations in the whole run
- the lookup and the single create for the first item, nothing for the
duplicate - and yields exactly one duplicate entry.  Recurrence-instance
items however bypass the duplicate check and are processed against the
store even when their identity was already processed (claim C2's
counterexample). -/
theorem c2_amended :
    (∀ (σ : Type) (M : StoreModel σ) (st : RunState σ) (D : GEvent)
        (rest : List FeedItem),
      D.iCalUID ∈ st.processed →
      runItems M false (⟨false, D⟩ :: rest) st =
        runItems M false rest
          { st with ledger.duplicates := st.ledger.duplicates ++ [D.iCalUID] }) ∧
    (∀ (feed : List FeedItem) (S : FStore), instFree feed →
      ∃ L S' tr, import_events faithfulStore S feed false = .ok (L, S', tr) ∧
        (∀ u, (cuufUids L).count u = (if u ∈ feedUids feed then 1 else 0)) ∧
        (∀ u, (cuufUids L).count u + L.duplicates.count u = (feedUids feed).count u)) ∧
    (import_events faithfulStore emptyStore
        [⟨false, sampleDesired⟩, ⟨false, sampleDesired⟩] false).map
        (fun r => (r.1.duplicates, r.2.2)) =
      .ok (["X"], [StoreOp.queryByUid "X", StoreOp.create "X"]) := by
  refine ⟨?_, ?_, ?_⟩
  · intro σ M st D rest hdup
    simp [runItems, processItem, hdup]
  · intro feed S hfree
    obtain ⟨st', h', hp', hc', hd'⟩ :=
      runItems_faithful_counts feed ⟨S, [], Ledger.init, []⟩ hfree
    refine ⟨st'.ledger, st'.store, st'.trace, by simp [import_events, h'], ?_, ?_⟩
    · intro u
      have := hc' u
      simpa [Ledger.init, cuufUids] using this
    · intro u
      have := hd' u
      simpa [Ledger.init, cuufUids] using this
  · rfl

/-- C2, witness: the amended theorem's duplicate short-circuit applied
at a state that already processed X, and its counting part applied to
the two-duplicates feed of the concrete conjunct. -/
theorem c2_witness :
    (runItems faithfulStore false [⟨false, sampleDesired⟩]
        ⟨emptyStore, ["X"], Ledger.init, []⟩ =
      runItems faithfulStore false []
        ⟨emptyStore, ["X"], ⟨[], [], [], ["X"], [], []⟩, []⟩) ∧
    (∃ L S' tr, import_events faithfulStore emptyStore
        [⟨false, sampleDesired⟩, ⟨false, sampleDesired⟩] false = .ok (L, S', tr) ∧
      (∀ u, (cuufUids L).count u =
        (if u ∈ feedUids [⟨false, sampleDesired⟩, ⟨false, sampleDesired⟩] then 1 else 0)) ∧
      (∀ u, (cuufUids L).count u + L.duplicates.count u =
        (feedUids [⟨false, sampleDesired⟩, ⟨false, sampleDesired⟩]).count u)) :=
  ⟨c2_amended.1 FStore faithfulStore ⟨emptyStore, ["X"], Ledger.init, []⟩
      sampleDesired [] (by decide),
   c2_amended.2.1 [⟨false, sampleDesired⟩, ⟨false, sampleDesired⟩] emptyStore
    (by intro it hit; simp at hit; simp [hit])⟩

/- Claim C1: idempotence.  Store-level lemmas about the faithful store,
then a two-phase simulation: a first run settles every first-occurrence
identity, and a second run over a settled store only produces untouched,
duplicate or failed outcomes. -/

/-- The events of a list carrying a given identity. -/
def uidFilter (l : List GEvent) (u : String) : List GEvent :=
  l.filter (fun e => e.iCalUID == u)

theorem fstoreGetByUid_eq (S : FStore) (u : String) :
    fstoreGetByUid S u = uidFilter S.events u := rfl

theorem uniqById {l : List GEvent} (hnd : (l.map (fun e => e.eventId)).Nodup)
    {x R : GEvent} (hx : x ∈ l) (hR : R ∈ l) (h : x.eventId = R.eventId) : x = R :=
  List.inj_on_of_nodup_map hnd hx hR h

theorem filter_map_comm {α : Type} (l : List α) (f : α → α) (p : α → Bool)
    (h : ∀ x ∈ l, p (f x) = p x) : (l.map f).filter p = (l.filter p).map f := by
  induction l with
  | nil => rfl
  | cons a l ih =>
      have ha := h a (by simp)
      simp only [List.map_cons, List.filter_cons, ha]
      by_cases hp : p a = true
      · simp [hp, ih (fun x hx => h x (by simp [hx]))]
      · simp only [Bool.not_eq_true] at hp
        simp [hp, ih (fun x hx => h x (by simp [hx]))]

theorem fstoreReplace_events (S : FStore) (e : GEvent) :
    (fstoreReplace S e).events =
      S.events.map (fun x => if x.eventId == e.eventId then e else x) := rfl

theorem fstoreReplace_nextId (S : FStore) (e : GEvent) :
    (fstoreReplace S e).nextId = S.nextId := rfl

theorem fstoreReplace_self_events {S : FStore} (hnd : (S.events.map (fun e => e.eventId)).Nodup)
    {R : GEvent} (hR : R ∈ S.events) : (fstoreReplace S R).events = S.events := by
  rw [fstoreReplace_events]
  have : ∀ x ∈ S.events, (if x.eventId == R.eventId then R else x) = x := by
    intro x hx
    by_cases h : x.eventId = R.eventId
    · rw [if_pos (by simpa using h), uniqById hnd hx hR h]
    · rw [if_neg (by simpa using h)]
  calc S.events.map (fun x => if x.eventId == R.eventId then R else x)
      = S.events.map id := List.map_congr_left this
    _ = S.events := List.map_id S.events

theorem uidFilter_replace {S : FStore} (hnd : (S.events.map (fun e => e.eventId)).Nodup)
    {R R1 : GEvent} (hmem : R ∈ S.events) (hid : R1.eventId = R.eventId)
    (huid : R1.iCalUID = R.iCalUID) (X : String) :
    uidFilter (fstoreReplace S R1).events X =
      (uidFilter S.events X).map (fun x => if x.eventId == R1.eventId then R1 else x) := by
  rw [fstoreReplace_events]
  apply filter_map_comm
  intro x hx
  by_cases h : x.eventId = R1.eventId
  · rw [if_pos (by simpa using h)]
    have hxR : x = R := uniqById hnd hx hmem (h.trans hid)
    rw [hxR, huid]
  · rw [if_neg (by simpa using h)]

theorem uidFilter_replace_other {S : FStore} (hnd : (S.events.map (fun e => e.eventId)).Nodup)
    {R R1 : GEvent} (hmem : R ∈ S.events) (hid : R1.eventId = R.eventId)
    (huid : R1.iCalUID = R.iCalUID) {X : String} (hX : X ≠ R.iCalUID) :
    uidFilter (fstoreReplace S R1).events X = uidFilter S.events X := by
  rw [uidFilter_replace hnd hmem hid huid X]
  have : ∀ x ∈ uidFilter S.events X, (if x.eventId == R1.eventId then R1 else x) = x := by
    intro x hx
    obtain ⟨hxl, hxu⟩ := List.mem_filter.1 hx
    by_cases h : x.eventId = R1.eventId
    · exfalso
      have hxR : x = R := uniqById hnd hxl hmem (h.trans hid)
      have : x.iCalUID = X := by simpa using hxu
      exact hX (by rw [← this, hxR])
    · rw [if_neg (by simpa using h)]
  calc (uidFilter S.events X).map (fun x => if x.eventId == R1.eventId then R1 else x)
      = (uidFilter S.events X).map id := List.map_congr_left this
    _ = uidFilter S.events X := List.map_id _

theorem uidFilter_replace_head {S : FStore} (hnd : (S.events.map (fun e => e.eventId)).Nodup)
    {R R1 : GEvent} {u : String} (hhead : (uidFilter S.events u).head? = some R)
    (hid : R1.eventId = R.eventId) (huid : R1.iCalUID = R.iCalUID) :
    (uidFilter (fstoreReplace S R1).events u).head? = some R1 := by
  have hmem : R ∈ S.events :=
    (List.mem_filter.1 (List.mem_of_mem_head? (Option.mem_def.2 hhead))).1
  rw [uidFilter_replace hnd hmem hid huid u, List.head?_map, hhead]
  simp [hid]

theorem uidFilter_append (l : List GEvent) (e : GEvent) (X : String) :
    uidFilter (l ++ [e]) X = uidFilter l X ++ (if e.iCalUID == X then [e] else []) := by
  simp only [uidFilter, List.filter_append]
  congr 1
  by_cases h : e.iCalUID == X
  · simp [List.filter_cons, h]
  · simp only [Bool.not_eq_true] at h
    simp [List.filter_cons, h]

theorem idsWF_replace {S : FStore} (hWF : idsWF S) {R R1 : GEvent}
    (hmem : R ∈ S.events) (hid : R1.eventId = R.eventId) :
    idsWF (fstoreReplace S R1) := by
  obtain ⟨hnd, hbd⟩ := hWF
  constructor
  · rw [fstoreReplace_events]
    have : (S.events.map (fun x => if x.eventId == R1.eventId then R1 else x)).map
        (fun e => e.eventId) = S.events.map (fun e => e.eventId) := by
      rw [List.map_map]
      apply List.map_congr_left
      intro x hx
      by_cases h : x.eventId = R1.eventId
      · simp [h]
      · simp [h]
    rw [this]
    exact hnd
  · intro e he
    rw [fstoreReplace_events] at he
    obtain ⟨x, hx, hxe⟩ := List.mem_map.1 he
    rw [fstoreReplace_nextId]
    by_cases h : x.eventId = R1.eventId
    · rw [if_pos (by simpa using h)] at hxe
      rw [← hxe, hid]
      exact hbd R hmem
    · rw [if_neg (by simpa using h)] at hxe
      rw [← hxe]
      exact hbd x hx

theorem idsWF_create {S : FStore} (hWF : idsWF S) (D : GEvent) :
    idsWF { S with
      events := S.events ++ [{ D with eventId := S.nextId }],
      nextId := S.nextId + 1 } := by
  obtain ⟨hnd, hbd⟩ := hWF
  constructor
  · simp only [List.map_append, List.map_cons, List.map_nil]
    rw [List.nodup_append]
    refine ⟨hnd, List.nodup_singleton _, ?_⟩
    intro a ha hb
    simp only [List.mem_singleton] at hb
    subst hb
    obtain ⟨x, hx, hxe⟩ := List.mem_map.1 ha
    have := hbd x hx
    omega
  · intro e he
    rcases List.mem_append.1 he with h | h
    · have := hbd e h
      simp only []
      omega
    · simp only [List.mem_singleton] at h
      subst h
      simp

/-- An identity is settled in a store-event list for a desired event
when the first stored event carrying the identity either compares equal
to the desired event, or compares unequal but is a fixed point of the
field copy (so a further update rewrites it to itself). -/
def Settled (events : List GEvent) (D : GEvent) : Prop :=
  ∃ R, (uidFilter events D.iCalUID).head? = some R ∧
    (gcal_compare R D true = true ∨
     (gcal_compare R D true = false ∧ copyFields R D = R))

/-- The stronger form: the first stored event carrying the identity
compares equal to the desired event. -/
def SettledTrue (events : List GEvent) (D : GEvent) : Prop :=
  ∃ R, (uidFilter events D.iCalUID).head? = some R ∧ gcal_compare R D true = true

theorem settled_congr {ev1 ev2 : List GEvent} {D : GEvent}
    (h : uidFilter ev1 D.iCalUID = uidFilter ev2 D.iCalUID) :
    Settled ev1 D → Settled ev2 D := by
  intro ⟨R, hR, hc⟩
  exact ⟨R, h ▸ hR, hc⟩

theorem settledTrue_congr {ev1 ev2 : List GEvent} {D : GEvent}
    (h : uidFilter ev1 D.iCalUID = uidFilter ev2 D.iCalUID) :
    SettledTrue ev1 D → SettledTrue ev2 D := by
  intro ⟨R, hR, hc⟩
  exact ⟨R, h ▸ hR, hc⟩

/-- The feed items that carry the first occurrence of their identity,
given the identities already seen: this mirrors exactly how
processed_uids evolves over an instance-free feed. -/
def firstOccs : List FeedItem → List String → List FeedItem
  | [], _ => []
  | it :: rest, seen =>
      if it.event.iCalUID ∈ seen then firstOccs rest seen
      else it :: firstOccs rest (seen ++ [it.event.iCalUID])

theorem firstOccs_cons_mem (it : FeedItem) (rest : List FeedItem) (seen : List String)
    (h : it.event.iCalUID ∈ seen) :
    firstOccs (it :: rest) seen = firstOccs rest seen := by
  simp [firstOccs, h]

theorem firstOccs_cons_not (it : FeedItem) (rest : List FeedItem) (seen : List String)
    (h : it.event.iCalUID ∉ seen) :
    firstOccs (it :: rest) seen =
      it :: firstOccs rest (seen ++ [it.event.iCalUID]) := by
  simp [firstOccs, h]

/-- One establishing step of the first run: a non-duplicate,
non-instance item against the faithful store leaves its identity
settled, does not disturb the stored events of other identities, and
every new created, updated or untouched entry carries the item's
identity with the identity settled-equal. -/
theorem processItem_faithful_establish (st : RunState FStore) (D : GEvent)
    (hWF : idsWF st.store) (hdup : D.iCalUID ∉ st.processed) :
    ∃ st', processItem faithfulStore false st ⟨false, D⟩ = .ok st' ∧
      st'.processed = st.processed ++ [D.iCalUID] ∧
      idsWF st'.store ∧
      (∀ X, X ≠ D.iCalUID → uidFilter st'.store.events X = uidFilter st.store.events X) ∧
      Settled st'.store.events D ∧
      (∀ e ∈ st'.ledger.created, e ∈ st.ledger.created ∨
        (e.iCalUID = D.iCalUID ∧ SettledTrue st'.store.events D)) ∧
      (∀ e ∈ st'.ledger.updated, e ∈ st.ledger.updated ∨
        (e.iCalUID = D.iCalUID ∧ SettledTrue st'.store.events D)) ∧
      (∀ e ∈ st'.ledger.untouched, e ∈ st.ledger.untouched ∨
        (e.iCalUID = D.iCalUID ∧ SettledTrue st'.store.events D)) := by
  cases hr : gcal_get_event faithfulStore st.store D.iCalUID with
  | some R =>
      have hhead : (uidFilter st.store.events D.iCalUID).head? = some R := hr
      obtain ⟨hRmem, hRuid⟩ := getByUid_head hr
      by_cases hcmp : gcal_compare R D true = true
      · refine ⟨{ st with
            ledger.untouched := st.ledger.untouched ++ [R],
            processed := st.processed ++ [D.iCalUID],
            trace := st.trace ++ [StoreOp.queryByUid D.iCalUID] }, ?_, rfl, hWF,
            fun X _ => rfl, ⟨R, hhead, Or.inl hcmp⟩,
            fun e he => Or.inl he, fun e he => Or.inl he, ?_⟩
        · simp [processItem, updatePath, hdup, hr, hcmp]
        · intro e he
          rcases List.mem_append.1 he with h | h
          · exact Or.inl h
          · simp only [List.mem_singleton] at h
            rw [h]
            exact Or.inr ⟨hRuid, R, hhead, hcmp⟩
      · have hcmp' : gcal_compare R D true = false := by simpa using hcmp
        have hid1 : (copyFields R D).eventId = R.eventId := copyFields_eventId R D
        have huid1 : (copyFields R D).iCalUID = R.iCalUID := copyFields_iCalUID R D
        have hhead' : (uidFilter (fstoreReplace st.store (copyFields R D)).events
            D.iCalUID).head? = some (copyFields R D) :=
          uidFilter_replace_head hWF.1 hhead hid1 huid1
        have hWF' : idsWF (fstoreReplace st.store (copyFields R D)) :=
          idsWF_replace hWF hRmem hid1
        have hother : ∀ X, X ≠ D.iCalUID →
            uidFilter (fstoreReplace st.store (copyFields R D)).events X =
              uidFilter st.store.events X := by
          intro X hX
          exact uidFilter_replace_other hWF.1 hRmem hid1 huid1 (by rw [hRuid]; exact hX)
        have hsettled : Settled (fstoreReplace st.store (copyFields R D)).events D := by
          refine ⟨copyFields R D, hhead', ?_⟩
          by_cases h2 : gcal_compare (copyFields R D) D true = true
          · exact Or.inl h2
          · exact Or.inr ⟨by simpa using h2, copyFields_idem R D⟩
        by_cases hv : gcal_compare D (copyFields R D) true = true
        · refine ⟨{ st with
              ledger.updated := st.ledger.updated ++ [copyFields R D],
              processed := st.processed ++ [D.iCalUID],
              trace := (st.trace ++ [StoreOp.queryByUid D.iCalUID]) ++
                [StoreOp.update (copyFields R D).eventId],
              store := fstoreReplace st.store (copyFields R D) }, ?_, rfl, hWF',
              hother, hsettled, fun e he => Or.inl he, ?_, fun e he => Or.inl he⟩
          · simp [processItem, updatePath, hdup, hr, hcmp', hv, faithful_update]
          · intro e he
            rcases List.mem_append.1 he with h | h
            · exact Or.inl h
            · simp only [List.mem_singleton] at h
              rw [h]
              refine Or.inr ⟨huid1.trans hRuid, copyFields R D, hhead', ?_⟩
              rw [gcal_compare_symm]
              exact hv
        · have hv' : gcal_compare D (copyFields R D) true = false := by simpa using hv
          refine ⟨{ st with
              ledger.failed := st.ledger.failed ++ [FailedEntry.ev (copyFields R D)],
              processed := st.processed ++ [D.iCalUID],
              trace := (st.trace ++ [StoreOp.queryByUid D.iCalUID]) ++
                [StoreOp.update (copyFields R D).eventId],
              store := fstoreReplace st.store (copyFields R D) }, ?_, rfl, hWF',
              hother, hsettled, fun e he => Or.inl he, fun e he => Or.inl he,
              fun e he => Or.inl he⟩
          simp [processItem, updatePath, hdup, hr, hcmp', hv', faithful_update]
  | none =>
      have hnil : uidFilter st.store.events D.iCalUID = [] := by
        have : (uidFilter st.store.events D.iCalUID).head? = none := hr
        exact List.head?_eq_none_iff.1 this
      have hfilterNew : uidFilter (st.store.events ++ [{ D with eventId := st.store.nextId }])
          D.iCalUID = [{ D with eventId := st.store.nextId }] := by
        rw [uidFilter_append, hnil]
        simp
      have hheadNew : (uidFilter (st.store.events ++ [{ D with eventId := st.store.nextId }])
          D.iCalUID).head? = some { D with eventId := st.store.nextId } := by
        rw [hfilterNew]
        rfl
      have hstrue : SettledTrue (st.store.events ++ [{ D with eventId := st.store.nextId }]) D :=
        ⟨{ D with eventId := st.store.nextId }, hheadNew, gcal_compare_set_id D _ true⟩
      refine ⟨{ st with
          ledger.created := st.ledger.created ++ [{ D with eventId := st.store.nextId }],
          processed := st.processed ++ [D.iCalUID],
          trace := (st.trace ++ [StoreOp.queryByUid D.iCalUID]) ++
            [StoreOp.create D.iCalUID],
          store := { st.store with
            events := st.store.events ++ [{ D with eventId := st.store.nextId }],
            nextId := st.store.nextId + 1 } }, ?_, rfl, idsWF_create hWF D, ?_, ?_, ?_,
          fun e he => Or.inl he, fun e he => Or.inl he⟩
      · simp [processItem, createPath, hdup, hr, gcal_compare_set_id' D st.store.nextId true,
          faithful_import]
      · intro X hX
        show uidFilter (st.store.events ++ [{ D with eventId := st.store.nextId }]) X = _
        rw [uidFilter_append]
        rw [if_neg (by simpa using fun h => hX h.symm)]
        simp
      · exact ⟨{ D with eventId := st.store.nextId }, hheadNew,
          Or.inl (gcal_compare_set_id D _ true)⟩
      · intro e he
        rcases List.mem_append.1 he with h | h
        · exact Or.inl h
        · simp only [List.mem_singleton] at h
          rw [h]
          exact Or.inr ⟨rfl, hstrue⟩

/-- The first run over an instance-free feed against the faithful store:
it succeeds, keeps the store well-formed, leaves the stored events of
already-processed identities unchanged, settles the identity of every
first-occurrence item, and every created, updated or untouched ledger
entry it adds carries the identity of a first-occurrence item that is
settled-equal in the final store. -/
theorem runItems_establish (feed : List FeedItem) (st : RunState FStore)
    (hfree : instFree feed) (hWF : idsWF st.store) :
    ∃ st', runItems faithfulStore false feed st = .ok st' ∧
      idsWF st'.store ∧
      (∀ X, X ∈ st.processed →
        uidFilter st'.store.events X = uidFilter st.store.events X) ∧
      (∀ it ∈ firstOccs feed st.processed, Settled st'.store.events it.event) ∧
      (∀ e ∈ st'.ledger.created, e ∈ st.ledger.created ∨
        ∃ it ∈ firstOccs feed st.processed, it.event.iCalUID = e.iCalUID ∧
          SettledTrue st'.store.events it.event) ∧
      (∀ e ∈ st'.ledger.updated, e ∈ st.ledger.updated ∨
        ∃ it ∈ firstOccs feed st.processed, it.event.iCalUID = e.iCalUID ∧
          SettledTrue st'.store.events it.event) ∧
      (∀ e ∈ st'.ledger.untouched, e ∈ st.ledger.untouched ∨
        ∃ it ∈ firstOccs feed st.processed, it.event.iCalUID = e.iCalUID ∧
          SettledTrue st'.store.events it.event) := by
  induction feed generalizing st with
  | nil =>
      exact ⟨st, rfl, hWF, fun X _ => rfl, by simp [firstOccs],
        fun e he => Or.inl he, fun e he => Or.inl he, fun e he => Or.inl he⟩
  | cons it rest ih =>
      have hit : it.hasRecurrenceId = false := hfree it (by simp)
      have hrest : instFree rest := fun jt hjt => hfree jt (by simp [hjt])
      obtain ⟨D, hitem⟩ : ∃ D, it = ⟨false, D⟩ :=
        ⟨it.event, by cases it with | mk a b => simp at hit; simp [hit]⟩
      subst hitem
      by_cases hdup : D.iCalUID ∈ st.processed
      · have hstep : processItem faithfulStore false st ⟨false, D⟩ =
            .ok { st with ledger.duplicates := st.ledger.duplicates ++ [D.iCalUID] } := by
          simp [processItem, hdup]
        obtain ⟨st', h', hWF', hstable', hsettled', hcr', hup', hun'⟩ :=
          ih { st with ledger.duplicates := st.ledger.duplicates ++ [D.iCalUID] } hrest hWF
        rw [firstOccs_cons_mem ⟨false, D⟩ rest st.processed hdup]
        exact ⟨st', by simp [runItems, hstep, h'], hWF', hstable', hsettled',
          hcr', hup', hun'⟩
      · obtain ⟨st1, hstep, hproc1, hWF1, hother1, hsettled1, hcr1, hup1, hun1⟩ :=
          processItem_faithful_establish st D hWF hdup
        obtain ⟨st', h', hWF', hstable', hsettled', hcr', hup', hun'⟩ :=
          ih st1 hrest hWF1
        have hD1 : D.iCalUID ∈ st1.processed := by
          rw [hproc1]
          simp
        have hKeepD : uidFilter st'.store.events D.iCalUID =
            uidFilter st1.store.events D.iCalUID := hstable' D.iCalUID hD1
        have hsetD : Settled st'.store.events D :=
          settled_congr hKeepD.symm hsettled1
        have hstrans : ∀ X, X ∈ st.processed →
            uidFilter st'.store.events X = uidFilter st.store.events X := by
          intro X hX
          have hXne : X ≠ D.iCalUID := fun h => hdup (h ▸ hX)
          have hX1 : X ∈ st1.processed := by
            rw [hproc1]
            exact List.mem_append.2 (Or.inl hX)
          rw [hstable' X hX1, hother1 X hXne]
        rw [firstOccs_cons_not ⟨false, D⟩ rest st.processed hdup]
        have hocc : firstOccs rest (st.processed ++ [D.iCalUID]) =
            firstOccs rest st1.processed := by rw [hproc1]
        refine ⟨st', by simp [runItems, hstep, h'], hWF', hstrans, ?_, ?_, ?_, ?_⟩
        · intro jt hjt
          rcases List.mem_cons.1 hjt with h | h
          · rw [h]
            exact hsetD
          · rw [hocc] at h
            exact hsettled' jt h
        · intro e he
          rcases hcr' e he with h | ⟨jt, hjt, hjuid, hjset⟩
          · rcases hcr1 e h with h2 | ⟨h2uid, h2set⟩
            · exact Or.inl h2
            · exact Or.inr ⟨⟨false, D⟩, by simp, h2uid.symm,
                settledTrue_congr hKeepD.symm h2set⟩
          · exact Or.inr ⟨jt, List.mem_cons.2 (Or.inr (hocc ▸ hjt)), hjuid, hjset⟩
        · intro e he
          rcases hup' e he with h | ⟨jt, hjt, hjuid, hjset⟩
          · rcases hup1 e h with h2 | ⟨h2uid, h2set⟩
            · exact Or.inl h2
            · exact Or.inr ⟨⟨false, D⟩, by simp, h2uid.symm,
                settledTrue_congr hKeepD.symm h2set⟩
          · exact Or.inr ⟨jt, List.mem_cons.2 (Or.inr (hocc ▸ hjt)), hjuid, hjset⟩
        · intro e he
          rcases hun' e he with h | ⟨jt, hjt, hjuid, hjset⟩
          · rcases hun1 e h with h2 | ⟨h2uid, h2set⟩
            · exact Or.inl h2
            · exact Or.inr ⟨⟨false, D⟩, by simp, h2uid.symm,
                settledTrue_congr hKeepD.symm h2set⟩
          · exact Or.inr ⟨jt, List.mem_cons.2 (Or.inr (hocc ▸ hjt)), hjuid, hjset⟩

/-- One step of the second run: a non-duplicate, non-instance item whose
identity is settled leaves the stored events unchanged, adds no created
or updated entry, and - when the identity is settled-equal - adds an
untouched entry carrying it. -/
theorem processItem_faithful_stable (st : RunState FStore) (D : GEvent)
    (hWF : idsWF st.store) (hdup : D.iCalUID ∉ st.processed)
    (hset : Settled st.store.events D) :
    ∃ st', processItem faithfulStore false st ⟨false, D⟩ = .ok st' ∧
      st'.processed = st.processed ++ [D.iCalUID] ∧
      st'.store.events = st.store.events ∧
      st'.store.nextId = st.store.nextId ∧
      st'.ledger.created = st.ledger.created ∧
      st'.ledger.updated = st.ledger.updated ∧
      (∀ e ∈ st.ledger.untouched, e ∈ st'.ledger.untouched) ∧
      (SettledTrue st.store.events D →
        D.iCalUID ∈ st'.ledger.untouched.map (fun e => e.iCalUID)) := by
  obtain ⟨R, hhead, hcases⟩ := hset
  have hr : gcal_get_event faithfulStore st.store D.iCalUID = some R := hhead
  obtain ⟨hRmem, hRuid⟩ := getByUid_head hr
  rcases hcases with hcmp | ⟨hcmp, hcf⟩
  · refine ⟨{ st with
        ledger.untouched := st.ledger.untouched ++ [R],
        processed := st.processed ++ [D.iCalUID],
        trace := st.trace ++ [StoreOp.queryByUid D.iCalUID] }, ?_, rfl, rfl, rfl,
        rfl, rfl, fun e he => List.mem_append.2 (Or.inl he), fun _ => ?_⟩
    · simp [processItem, updatePath, hdup, hr, hcmp]
    · rw [← hRuid]
      exact List.mem_map.2 ⟨R, List.mem_append.2 (Or.inr (by simp)), rfl⟩
  · have hv : gcal_compare D (copyFields R D) true = false := by
      rw [hcf, gcal_compare_symm]
      exact hcmp
    have hev : (fstoreReplace st.store (copyFields R D)).events = st.store.events := by
      rw [hcf]
      exact fstoreReplace_self_events hWF.1 hRmem
    refine ⟨{ st with
        ledger.failed := st.ledger.failed ++ [FailedEntry.ev (copyFields R D)],
        processed := st.processed ++ [D.iCalUID],
        trace := (st.trace ++ [StoreOp.queryByUid D.iCalUID]) ++
          [StoreOp.update (copyFields R D).eventId],
        store := fstoreReplace st.store (copyFields R D) }, ?_, rfl, hev,
        fstoreReplace_nextId _ _, rfl, rfl, fun e he => he, fun hstrue => ?_⟩
    · simp [processItem, updatePath, hdup, hr, (by simpa using hcmp :
        gcal_compare R D true = false), hv, faithful_update]
    · exfalso
      obtain ⟨R2, hh2, hc2⟩ := hstrue
      rw [hhead] at hh2
      have : R2 = R := by injection hh2.symm
      rw [this] at hc2
      rw [hc2] at hcmp
      exact absurd hcmp (by simp)

/-- The second run over an instance-free feed whose first-occurrence
identities are all settled: it succeeds, leaves the stored events and
the created and updated ledger lists unchanged, and classifies every
settled-equal first-occurrence identity untouched. -/
theorem runItems_stable (feed : List FeedItem) (st : RunState FStore)
    (hfree : instFree feed) (hWF : idsWF st.store)
    (hset : ∀ it ∈ firstOccs feed st.processed, Settled st.store.events it.event) :
    ∃ st', runItems faithfulStore false feed st = .ok st' ∧
      st'.store.events = st.store.events ∧
      st'.store.nextId = st.store.nextId ∧
      st'.ledger.created = st.ledger.created ∧
      st'.ledger.updated = st.ledger.updated ∧
      (∀ e ∈ st.ledger.untouched, e ∈ st'.ledger.untouched) ∧
      (∀ it ∈ firstOccs feed st.processed, SettledTrue st.store.events it.event →
        it.event.iCalUID ∈ st'.ledger.untouched.map (fun e => e.iCalUID)) := by
  induction feed generalizing st with
  | nil =>
      exact ⟨st, rfl, rfl, rfl, rfl, rfl, fun e he => he, by simp [firstOccs]⟩
  | cons it rest ih =>
      have hit : it.hasRecurrenceId = false := hfree it (by simp)
      have hrest : instFree rest := fun jt hjt => hfree jt (by simp [hjt])
      obtain ⟨D, hitem⟩ : ∃ D, it = ⟨false, D⟩ :=
        ⟨it.event, by cases it with | mk a b => simp at hit; simp [hit]⟩
      subst hitem
      by_cases hdup : D.iCalUID ∈ st.processed
      · have hstep : processItem faithfulStore false st ⟨false, D⟩ =
            .ok { st with ledger.duplicates := st.ledger.duplicates ++ [D.iCalUID] } := by
          simp [processItem, hdup]
        rw [firstOccs_cons_mem ⟨false, D⟩ rest st.processed hdup] at hset ⊢
        obtain ⟨st', h', hev', hnid', hcr', hup', hmono', hunt'⟩ :=
          ih { st with ledger.duplicates := st.ledger.duplicates ++ [D.iCalUID] }
            hrest hWF hset
        exact ⟨st', by simp [runItems, hstep, h'], hev', hnid', hcr', hup',
          hmono', hunt'⟩
      · rw [firstOccs_cons_not ⟨false, D⟩ rest st.processed hdup] at hset ⊢
        have hsetD : Settled st.store.events D := hset ⟨false, D⟩ (by simp)
        obtain ⟨st1, hstep, hproc1, hev1, hnid1, hcr1, hup1, hmono1, hunt1⟩ :=
          processItem_faithful_stable st D hWF hdup hsetD
        have hWF1 : idsWF st1.store := by
          obtain ⟨hnd, hbd⟩ := hWF
          constructor
          · rw [hev1]
            exact hnd
          · intro e he
            rw [hev1] at he
            rw [hnid1]
            exact hbd e he
        have hocc1 : firstOccs rest (st.processed ++ [D.iCalUID]) =
            firstOccs rest st1.processed := by rw [hproc1]
        have hset1 : ∀ jt ∈ firstOccs rest st1.processed,
            Settled st1.store.events jt.event := by
          intro jt hjt
          rw [← hocc1] at hjt
          exact settled_congr (by rw [hev1]) (hset jt (List.mem_cons.2 (Or.inr hjt)))
        obtain ⟨st', h', hev', hnid', hcr', hup', hmono', hunt'⟩ :=
          ih st1 hrest hWF1 hset1
        refine ⟨st', by simp [runItems, hstep, h'], hev'.trans hev1,
          hnid'.trans hnid1, hcr'.trans hcr1, hup'.trans hup1,
          fun e he => hmono' e (hmono1 e he), ?_⟩
        intro jt hjt hjtrue
        rcases List.mem_cons.1 hjt with h | h
        · have hjtrueD : SettledTrue st.store.events D := by
            rw [h] at hjtrue
            exact hjtrue
          obtain ⟨e, hemem, heuid⟩ := List.mem_map.1 (hunt1 hjtrueD)
          rw [h]
          exact List.mem_map.2 ⟨e, hmono' e hemem, heuid⟩
        · rw [hocc1] at h
          have hjtrue1 : SettledTrue st1.store.events jt.event :=
            settledTrue_congr (by rw [hev1]) hjtrue
          exact hunt' jt h hjtrue1

/-- The store state after the first run of the C1 counterexample. -/
def c1MidStore : FStore := ⟨[cancelledResult], [], 101⟩

/-- C1, counterexample.  Against a store exhibiting the cancelled-status
write quirk the source itself documents (lines 379-380), a completed
first run classifies identity X as created; the second run, on the
unchanged feed and the store state the first run left behind, classifies
X as failed, not untouched - refuting the claim that every identity
written by the first run is classified untouched by the second. -/
theorem c1_counterexample :
    (import_events cancelStatusStore emptyStore [⟨false, sampleDesired⟩] false).map
        (fun r => (r.1.created.map (fun e => e.iCalUID), r.2.1)) =
      .ok (["X"], c1MidStore) ∧
    (import_events cancelStatusStore c1MidStore [⟨false, sampleDesired⟩] false).map
        (fun r => (r.1.untouched, r.1.created, r.1.updated,
          r.1.failed.map FailedEntry.theUid)) =
      .ok ([], [], [], ["X"]) := by
  exact ⟨rfl, rfl⟩

/-- C1, amended.  For every instance-free feed and every well-formed
store state, against the faithful store (writes succeed and store the
written event verbatim - excluding the cancelled-status quirk of the
counterexample), running import_events twice in succession with the feed
unchanged yields a second run with zero created and zero updated
entries, and every identity the first run classified created, updated or
untouched is classified untouched by the second run. -/
theorem c1_amended (feed : List FeedItem) (S : FStore)
    (hfree : instFree feed) (hWF : idsWF S) :
    ∃ L1 S1 tr1 L2 S2 tr2,
      import_events faithfulStore S feed false = .ok (L1, S1, tr1) ∧
      import_events faithfulStore S1 feed false = .ok (L2, S2, tr2) ∧
      L2.created = [] ∧ L2.updated = [] ∧
      ∀ u ∈ (L1.created ++ L1.updated ++ L1.untouched).map (fun e => e.iCalUID),
        u ∈ L2.untouched.map (fun e => e.iCalUID) := by
  obtain ⟨st1, h1, hWF1, _, hsettled1, hcr1, hup1, hun1⟩ :=
    runItems_establish feed ⟨S, [], Ledger.init, []⟩ hfree hWF
  obtain ⟨st2, h2, _, _, hcr2, hup2, _, hunt2⟩ :=
    runItems_stable feed ⟨st1.store, [], Ledger.init, []⟩ hfree hWF1 hsettled1
  refine ⟨st1.ledger, st1.store, st1.trace, st2.ledger, st2.store, st2.trace,
    by simp [import_events, h1], by simp [import_events, h2],
    by rw [hcr2]; rfl, by rw [hup2]; rfl, ?_⟩
  intro u hu
  obtain ⟨e, hemem, heuid⟩ := List.mem_map.1 hu
  have hlink : ∃ it ∈ firstOccs feed ([] : List String),
      it.event.iCalUID = e.iCalUID ∧ SettledTrue st1.store.events it.event := by
    rcases List.mem_append.1 hemem with h | hunt
    · rcases List.mem_append.1 h with hcr | hup
      · rcases hcr1 e hcr with h0 | h0
        · simp [Ledger.init] at h0
        · exact h0
      · rcases hup1 e hup with h0 | h0
        · simp [Ledger.init] at h0
        · exact h0
    · rcases hun1 e hunt with h0 | h0
      · simp [Ledger.init] at h0
      · exact h0
  obtain ⟨it, hit, hituid, hitset⟩ := hlink
  have := hunt2 it hit hitset
  rw [hituid, heuid] at this
  exact this

/-- C1, witness: the amended theorem applied to a one-item feed and the
empty store. -/
theorem c1_witness :
    ∃ L1 S1 tr1 L2 S2 tr2,
      import_events faithfulStore emptyStore [⟨false, sampleDesired⟩] false =
        .ok (L1, S1, tr1) ∧
      import_events faithfulStore S1 [⟨false, sampleDesired⟩] false =
        .ok (L2, S2, tr2) ∧
      L2.created = [] ∧ L2.updated = [] ∧
      ∀ u ∈ (L1.created ++ L1.updated ++ L1.untouched).map (fun e => e.iCalUID),
        u ∈ L2.untouched.map (fun e => e.iCalUID) :=
  c1_amended [⟨false, sampleDesired⟩] emptyStore
    (by intro it hit; simp at hit; simp [hit])
    ⟨by simp [emptyStore], by simp [emptyStore]⟩

end GcalImport
